import Mathlib

/-!
Verification development for the firefox-webext-browser definition generator
(`src/converter.ts`).  The converter's schema model and its conversion
functions are embedded shallowly: JavaScript in-place mutation becomes
explicit node-returning, `console.log` and the additional-type sink become an
explicit state record, `throw` becomes `Except`, and the recursion is
fuel-indexed.  The markdown helpers from `desc-to-doc.ts` are out of the core
and are passed in as opaque string functions in the context, exactly at the
interface the converter uses them (`descToMarkdown`, `toDocComment`).
-/

namespace Converter

/-- JavaScript loose truthiness of an optional string (`undefined` and `""` are falsy). -/
def truthyS : Option String → Bool
  | none => false
  | some s => s ≠ ""

/-- JavaScript truthiness of an optional boolean field (only `true` is truthy). -/
def truthyB : Option Bool → Bool
  | some true => true
  | _ => false

/-- JavaScript template-literal rendering of a possibly-undefined string
(`undefined` prints as `"undefined"`). -/
def tmpl : Option String → String
  | none => "undefined"
  | some s => s

def isPrefixList : List Char → List Char → Bool
  | [], _ => true
  | _ :: _, [] => false
  | a :: as, b :: bs => a == b && isPrefixList as bs

/-- `String.endsWith` on the character lists. -/
def jsEndsWith (s suffix : String) : Bool :=
  isPrefixList suffix.data.reverse s.data.reverse

/-- `String.startsWith` on the character lists. -/
def jsStartsWith (s pre : String) : Bool :=
  isPrefixList pre.data s.data

/-- `String.includes` of JavaScript on the character lists. -/
def hasSubstr : List Char → List Char → Bool
  | [], needle => isPrefixList needle []
  | hay@(_ :: t), needle => isPrefixList needle hay || hasSubstr t needle

def splitOnCharAux (c : Char) : List Char → List Char → List String
  | [], cur => [String.mk cur.reverse]
  | x :: xs, cur =>
    if x = c then String.mk cur.reverse :: splitOnCharAux c xs []
    else splitOnCharAux c xs (x :: cur)

/-- `String.split` of JavaScript with a one-character separator. -/
def jsSplitChar (s : String) (c : Char) : List String := splitOnCharAux c s.data []

/-- `String.toLowerCase` (ASCII). -/
def jsToLower (s : String) : String := String.mk (s.data.map Char.toLower)

/-- The value of a schema node's `value` field (we only need its `typeof`). -/
inductive JLit where
  | str (s : String)
  | num (n : Int)
  | bool (b : Bool)
  deriving DecidableEq, Repr

/-- JavaScript truthiness of a `value` field. -/
def truthyV : Option JLit → Bool
  | none => false
  | some (.str s) => s ≠ ""
  | some (.num n) => n ≠ 0
  | some (.bool b) => b

/-- `typeof` of a literal value. -/
def typeofV : JLit → String
  | .str _ => "string"
  | .num _ => "number"
  | .bool _ => "boolean"

/-- The `async` field: `boolean | string` in the schemas. -/
inductive AsyncV where
  | b (x : Bool)
  | s (x : String)
  deriving DecidableEq, Repr

/-- JavaScript truthiness of the `async` field. -/
def truthyA : Option AsyncV → Bool
  | none => false
  | some (.b x) => x
  | some (.s x) => x ≠ ""

/-- An `enum` entry: a plain string or a `{name, description}` record. -/
inductive EnumVal where
  | str (s : String)
  | obj (name : String) (description : Option String)
  deriving DecidableEq, Repr

/-- The non-recursive shell of a schema type node; `τ` stands for the node
type itself (`TypeSchema` below).  Field names follow `types/converter.d.ts`
(`$ref`/`$extend`/`$import` are `ref`/`ext`/`imp`; `type` is `typ`;
`enum` is `enumV`). -/
structure TSF (τ : Type) where
  id : Option String := none
  name : Option String := none
  ref : Option String := none
  ext : Option String := none
  imp : Option String := none
  typ : Option String := none
  isInstanceOf : Option String := none
  description : Option String := none
  deprecated : Option (Sum Bool String) := none
  unsupported : Option Bool := none
  optional : Option Bool := none
  choices : Option (List τ) := none
  enumV : Option (List EnumVal) := none
  properties : Option (List (String × τ)) := none
  patternProperties : Option (List (String × τ)) := none
  functions : Option (List τ) := none
  events : Option (List τ) := none
  parameters : Option (List τ) := none
  extraParameters : Option (List τ) := none
  returns : Option τ := none
  items : Option τ := none
  additionalProperties : Option τ := none
  minItems : Option Nat := none
  maxItems : Option Nat := none
  value : Option JLit := none
  async : Option AsyncV := none
  converterTypeOverride : Option String := none
  converterAdditionalType : Option String := none
  allowedContexts : Option (List String) := none
  deriving Repr

/-- A schema type node (`TypeSchema` in `types/converter.d.ts`). -/
inductive TypeSchema where
  | mk (fields : TSF TypeSchema)

/-- Projection to the field record. -/
def TypeSchema.fs : TypeSchema → TSF TypeSchema
  | .mk f => f

/-- Rebuild a node from an updated field record. -/
def TypeSchema.withFs (_t : TypeSchema) (f : TSF TypeSchema) : TypeSchema := .mk f

/-- The empty node (all fields absent). -/
def emptyTS : TypeSchema := .mk {}

/-- A namespace record (`NamespaceSchema`). -/
structure NamespaceSchema where
  namespaceName : String
  description : Option String := none
  allowedContexts : Option (List String) := none
  types : Option (List TypeSchema) := none
  imp : Option String := none
  functions : Option (List TypeSchema) := none
  properties : Option (List (String × TypeSchema)) := none
  events : Option (List TypeSchema) := none
  permissions : Option (List String) := none

/-- First-match lookup in a JavaScript-object-like association list. -/
def jsGet (l : List (String × α)) (k : String) : Option α :=
  (l.find? (fun p => p.1 == k)).map (·.2)

/-- JavaScript-object key set, in insertion order. -/
def jsKeys (l : List (String × α)) : List String := l.map (·.1)

/-- Assignment into a JavaScript-object-like association list: an existing key
keeps its position, a new key is appended. -/
def jsSet (l : List (String × α)) (k : String) (v : α) : List (String × α) :=
  if (l.find? (fun p => p.1 == k)).isSome then
    l.map (fun p => if p.1 == k then (p.1, v) else p)
  else l ++ [(k, v)]

/-- `Object.assign(dst, src)`: every key of `src` overwrites/extends `dst`,
existing keys keep their position, new keys are appended in `src` order. -/
def jsAssign (dst src : List (String × α)) : List (String × α) :=
  dst.map (fun p => match jsGet src p.1 with
    | some v => (p.1, v)
    | none => p)
  ++ src.filter (fun p => !(jsKeys dst).contains p.1)

/-- `Array.prototype.findIndex` (−1 when no element matches). -/
def jsFindIndex (l : List α) (p : α → Bool) : Int :=
  match l.findIdx? p with
  | some i => Int.ofNat i
  | none => -1

/-- Split a list at the first element satisfying `p`
(models `find` + identity-based `filter(x => x !== found)`). -/
def splitFirst (p : α → Bool) : List α → Option (List α × α × List α)
  | [] => none
  | x :: xs =>
    if p x then some ([], x, xs)
    else (splitFirst p xs).map (fun r => (x :: r.1, r.2.1, r.2.2))

/-- `_.uniqWith`: keep the first element of every `cmp`-equivalence class. -/
def uniqWith (cmp : α → α → Bool) (l : List α) : List α :=
  l.foldl (fun acc x => if acc.any (fun y => cmp x y) then acc else acc ++ [x]) []

/-- The id-or-name comparator used for `_.uniqWith` inside the `$import`
merges (`converter.ts` lines 275/553/833). -/
def cmpIdName (a b : TypeSchema) : Bool :=
  (a.fs.id.isSome && a.fs.id == b.fs.id) || (a.fs.name.isSome && a.fs.name == b.fs.name)

/-- The same comparator evaluated on enum entries: plain strings have neither
`id` nor `name`, records compare by `name`. -/
def cmpIdNameEnum (a b : EnumVal) : Bool :=
  match a, b with
  | .obj n _, .obj m _ => n == m
  | _, _ => false

/-- The same comparator on plain strings: they have no `id`/`name`, so it is
always false (no de-duplication happens). -/
def cmpIdNameStr (_a _b : String) : Bool := false

/-! ## The lodash `mergeWith` customizers

`collapseExtendedTypes` merges with a customizer that only concatenates
arrays (scalar conflicts fall to the lodash default: a defined incoming value
wins).  `extendImportedTypes` and the `$import` handling in
`convertObjectProperties` additionally keep a defined non-object destination
value and de-duplicate concatenated arrays by id-or-name.  The namespace-level
`$import` merge keeps the destination value for keys named
`namespace`/`description`/`permissions` at any depth and de-duplicates arrays
by id-or-name. -/

inductive ArrayRule where
  | plainConcat
  | uniqIdName
  deriving DecidableEq

inductive ScalarRule where
  | srcWins
  | dstWinsDefined
  | dstWinsDescriptionOnly
  deriving DecidableEq

structure MergeMode where
  arrays : ArrayRule
  scalars : ScalarRule

def collapseMode : MergeMode := ⟨.plainConcat, .srcWins⟩
def importMode : MergeMode := ⟨.uniqIdName, .dstWinsDefined⟩
def nsNestedMode : MergeMode := ⟨.uniqIdName, .dstWinsDescriptionOnly⟩

/-- Merge of one scalar (non-object, non-array) field. -/
def mSc (mode : MergeMode) (isDescription : Bool) (dst src : Option α) : Option α :=
  match src with
  | none => dst
  | some s =>
    match mode.scalars with
    | .srcWins => some s
    | .dstWinsDefined => if dst.isSome then dst else some s
    | .dstWinsDescriptionOnly =>
      if isDescription && dst.isSome then dst else some s

/-- Merge of one array-valued field. -/
def mArr (mode : MergeMode) (cmp : α → α → Bool) (dst src : Option (List α)) :
    Option (List α) :=
  match dst, src with
  | _, none => dst
  | none, some ys => some ys
  | some xs, some ys =>
    match mode.arrays with
    | .plainConcat => some (xs ++ ys)
    | .uniqIdName => some (uniqWith cmp (xs ++ ys))

/-- Merge of one object-valued field (both sides present → deep merge). -/
def mObj (merge : α → α → α) (dst src : Option α) : Option α :=
  match dst, src with
  | _, none => dst
  | none, some s => some s
  | some d, some s => some (merge d s)

/-- Merge of a plain-object-of-nodes field (`properties`): matching keys are
deep-merged, destination keys keep their position, new source keys are
appended. -/
def mProps (merge : α → α → α) (dst src : Option (List (String × α))) :
    Option (List (String × α)) :=
  match dst, src with
  | _, none => dst
  | none, some s => some s
  | some d, some s =>
    some (d.map (fun p => match jsGet s p.1 with
      | some v => (p.1, merge p.2 v)
      | none => p)
      ++ s.filter (fun p => !(jsKeys d).contains p.1))

/-- Fuel-indexed deep `_.mergeWith` on schema type nodes. -/
def mergeTS (mode : MergeMode) : Nat → TypeSchema → TypeSchema → TypeSchema
  | 0, dst, _ => dst
  | fuel + 1, dst, src =>
    let d := dst.fs
    let s := src.fs
    .mk {
      id := mSc mode false d.id s.id
      name := mSc mode false d.name s.name
      ref := mSc mode false d.ref s.ref
      ext := mSc mode false d.ext s.ext
      imp := mSc mode false d.imp s.imp
      typ := mSc mode false d.typ s.typ
      isInstanceOf := mSc mode false d.isInstanceOf s.isInstanceOf
      description := mSc mode true d.description s.description
      deprecated := mSc mode false d.deprecated s.deprecated
      unsupported := mSc mode false d.unsupported s.unsupported
      optional := mSc mode false d.optional s.optional
      choices := mArr mode cmpIdName d.choices s.choices
      enumV := mArr mode cmpIdNameEnum d.enumV s.enumV
      properties := mProps (mergeTS mode fuel) d.properties s.properties
      patternProperties := mProps (mergeTS mode fuel) d.patternProperties s.patternProperties
      functions := mArr mode cmpIdName d.functions s.functions
      events := mArr mode cmpIdName d.events s.events
      parameters := mArr mode cmpIdName d.parameters s.parameters
      extraParameters := mArr mode cmpIdName d.extraParameters s.extraParameters
      returns := mObj (mergeTS mode fuel) d.returns s.returns
      items := mObj (mergeTS mode fuel) d.items s.items
      additionalProperties := mObj (mergeTS mode fuel) d.additionalProperties s.additionalProperties
      minItems := mSc mode false d.minItems s.minItems
      maxItems := mSc mode false d.maxItems s.maxItems
      value := mSc mode false d.value s.value
      async := mSc mode false d.async s.async
      converterTypeOverride := mSc mode false d.converterTypeOverride s.converterTypeOverride
      converterAdditionalType := mSc mode false d.converterAdditionalType s.converterAdditionalType
      allowedContexts := mArr mode cmpIdNameStr d.allowedContexts s.allowedContexts
    }

/-- The namespace-level `$import` merge of `convertNamespace`
(lines 828–838): `namespace`/`description`/`permissions` keep the destination
value when defined, arrays concatenate with id-or-name de-duplication, the
properties object deep-merges with the same customizer. -/
def mergeNS (fuel : Nat) (dst src : NamespaceSchema) : NamespaceSchema :=
  { namespaceName := dst.namespaceName
    description := dst.description.orElse (fun _ => src.description)
    permissions := dst.permissions.orElse (fun _ => src.permissions)
    allowedContexts := mArr nsNestedMode cmpIdNameStr dst.allowedContexts src.allowedContexts
    types := mArr nsNestedMode cmpIdName dst.types src.types
    functions := mArr nsNestedMode cmpIdName dst.functions src.functions
    events := mArr nsNestedMode cmpIdName dst.events src.events
    properties := mProps (mergeTS nsNestedMode fuel) dst.properties src.properties
    imp := mSc ⟨.uniqIdName, .srcWins⟩ false dst.imp src.imp }

/-! ## Converter state and context -/

/-- The mutable converter state a conversion call touches: the
additional-type sink (`this.additionalTypes`) and the `console.log` output. -/
structure ConvState where
  additionalTypes : List String := []
  warnings : List String := []
  deriving DecidableEq, Repr

inductive ConvErr where
  | cannotHandle (t : TypeSchema)
  | outOfFuel

/-- Conversion monad: converter state plus the `throw new Error` of
`convertType` (and fuel exhaustion of the embedding). -/
abbrev ConvM (α : Type) := StateT ConvState (Except ConvErr) α

def pushAdditional (s : String) : ConvM Unit :=
  modify fun st => { st with additionalTypes := st.additionalTypes ++ [s] }

def warn (s : String) : ConvM Unit :=
  modify fun st => { st with warnings := st.warnings ++ [s] }

/-- The read context of a conversion call: the namespace-alias table, the
namespace table, the current namespace, and the two documentation helpers
from `desc-to-doc.ts`. -/
structure Ctx where
  aliases : List (String × String)
  namespaces : List (String × NamespaceSchema)
  ns : String
  d2m : String → String
  toDoc : String → String

/-! ## Constants (top of `converter.ts`) -/

def RESERVED : List String :=
  ["break", "case", "catch", "class", "const", "continue", "debugger",
   "default", "delete", "do", "else", "enum", "export", "extends", "false",
   "finally", "for", "function", "if", "import", "in", "instanceof", "new",
   "null", "return", "super", "switch", "this", "throw", "true", "try",
   "typeof", "var", "void", "while", "with"]

def SIMPLE_TYPES : List String := ["string", "integer", "number", "boolean", "any", "null"]

def ALREADY_OPTIONAL_RETURNS : List String := ["any", "undefined", "void"]

def CONTEXT_NAMES : List (String × String) :=
  [("addon_parent", "Add-on parent"), ("content", "Content scripts"),
   ("devtools", "Devtools pages"), ("proxy", "Proxy scripts")]

def CTX_CMT_ONLY_ALLOWED_IN : List String := ["content", "devtools", "proxy"]

def CTX_CMT_NOT_ALLOWED_IN : List String := ["content", "devtools"]

def CTX_CMT_ALLOWED_IN : List String := ["proxy"]

/-- `formatContexts`: renders an `allowedContexts` array as a readable
string. -/
def formatContexts (contexts0 : Option (List String)) (outputAlways : Bool := false) : String :=
  let empty := match contexts0 with
    | none => true
    | some cs => cs.isEmpty
  if empty && !outputAlways then ""
  else
    let contexts := if empty then [] else contexts0.getD []
    -- first context of the form "<x>_only" with x in CTX_CMT_ONLY_ALLOWED_IN
    let only? := contexts.findSome? (fun ctx =>
      if jsEndsWith ctx "_only" && CTX_CMT_ONLY_ALLOWED_IN.contains (ctx.dropRight 5)
      then some (ctx.dropRight 5) else none)
    match only? with
    | some base => "Allowed in: " ++ tmpl (jsGet CONTEXT_NAMES base) ++ " only"
    | none =>
      let notAllowedIn := CTX_CMT_NOT_ALLOWED_IN.filter (fun ctx => !contexts.contains ctx)
      let lines1 :=
        if notAllowedIn.length > 0 then
          ["Not allowed in: " ++
            String.intercalate ", " (notAllowedIn.map (fun ctx => tmpl (jsGet CONTEXT_NAMES ctx)))]
        else []
      let allowedIn := CTX_CMT_ALLOWED_IN.filter (fun ctx => contexts.contains ctx)
      let lines2 :=
        if allowedIn.length > 0 then
          ["Allowed in: " ++
            String.intercalate ", " (allowedIn.map (fun ctx => tmpl (jsGet CONTEXT_NAMES ctx)))]
        else []
      let lines := lines1 ++ lines2
      if lines.length > 0 then String.intercalate "\n\n" lines else ""

/-- JavaScript truthiness of the `deprecated` field (`boolean | string`). -/
def truthyDep : Option (Sum Bool String) → Bool
  | none => false
  | some (.inl b) => b
  | some (.inr s) => s ≠ ""

/-- `commentFromSchema` applied to a type node. -/
def commentFromSchema (c : Ctx) (t : TypeSchema) : String :=
  let f := t.fs
  let doclines0 : List String :=
    if truthyS f.description then [c.d2m (f.description.getD "")] else []
  let contexts := formatContexts f.allowedContexts
  let doclines1 :=
    if contexts ≠ "" then
      (if doclines0.length > 0 then doclines0 ++ [""] else doclines0) ++ [contexts]
    else doclines0
  let doclines2 := doclines1 ++
    (f.parameters.getD []).foldr (fun p acc =>
      if !truthyS p.fs.description then acc
      else
        let nm := if truthyB p.fs.optional then "[" ++ tmpl p.fs.name ++ "]" else tmpl p.fs.name
        let desc := if truthyS p.fs.description then " " ++ c.d2m (p.fs.description.getD "") else ""
        ("@param " ++ nm ++ desc) :: acc) []
  let doclines3 :=
    if truthyDep f.deprecated then
      let desc := match f.deprecated with
        | some (.inr s) => s
        | _ => f.description.getD ""
      doclines2 ++ ["@deprecated " ++ c.d2m desc]
    else if truthyB f.unsupported then
      doclines2 ++ ["@deprecated Unsupported on Firefox at this time."]
    else doclines2
  let doclines4 :=
    match f.returns with
    | some r =>
      if truthyS r.fs.description then
        doclines3 ++ ["@returns " ++ c.d2m (r.fs.description.getD "")]
      else doclines3
    | none => doclines3
  if doclines4.length = 0 then ""
  else c.toDoc (String.intercalate "\n" doclines4) ++ "\n"

/-- `commentFromSchema` applied to a `{name, description}` enum entry. -/
def commentFromNameDesc (c : Ctx) (description : Option String) : String :=
  if truthyS description then c.toDoc (c.d2m (description.getD "")) ++ "\n" else ""

/-! ## Pure converter helpers -/

/-- `convertPrimitive`: the schema's `integer` becomes `number`. -/
def convertPrimitive (t : String) : String :=
  if t == "integer" then "number" else t

/-- JavaScript `x.charAt(0).toUpperCase() + x.slice(1)` (ASCII). -/
def capitalizeJS (s : String) : String :=
  match s.data with
  | [] => ""
  | ch :: rest => String.mk (ch.toUpper :: rest)

/-- `convertName`: from snake_case to PascalCase. -/
def convertName (name : String) : String :=
  String.join ((jsSplitChar name '_').map capitalizeJS)

/-- `convertRef` (lines 310–334): resolve a dotted reference against the
alias table and the namespace table; when both fail, register a
`type ... = any;` helper and log. -/
def convertRef (c : Ctx) (ref0 : String) : ConvM String := do
  let ns0 := ((jsSplitChar ref0 '.').headD "")
  -- alias resolution; note a dotless ref gains a literal ".undefined" segment
  let (ns1, ref1) :=
    match jsGet c.aliases ns0 with
    | some a => (a, a ++ "." ++ tmpl ((jsSplitChar ref0 '.').get? 1))
    | none => (ns0, ref0)
  -- when the namespace is the current one the qualifier is stripped; a
  -- dotless ref degenerates to `undefined` here, as in the source
  let refVar : Option String :=
    if ns1 == c.ns then (jsSplitChar ref1 '.').get? 1 else some ref1
  if (jsKeys c.namespaces).contains ns1 then
    pure (tmpl refVar)
  else
    let curTypes := ((jsGet c.namespaces c.ns).bind (·.types)).getD []
    if !(curTypes.any (fun x => x.fs.id == refVar)) then do
      warn ("Warning: Cannot find reference \"" ++ tmpl refVar ++ "\", assuming the browser knows better.")
      pushAdditional ("type " ++ tmpl refVar ++ " = any;")
      pure (tmpl refVar)
    else
      pure (tmpl refVar)

/-- `collapseExtendedTypes` grouping key: `type.$extend || type.id`
(`undefined` and `""` are falsy). -/
def collapseKey (t : TypeSchema) : Option String :=
  if truthyS t.fs.ext then t.fs.ext else t.fs.id

/-- What an original array slot holds after `collapseExtendedTypes` ran over
it: either the first occurrence of a group (whose object keeps being mutated
through the merged record) or a later occurrence that only lost its
`$extend` key. -/
inductive CollapseSlot where
  | first (k : Option String)
  | later (t : TypeSchema)

/-- Option-keyed association lookup (a `Indexable` keyed by a possibly
undefined name). -/
def ogGet (l : List (Option String × α)) (k : Option String) : Option α :=
  (l.find? (fun p => p.1 == k)).map (·.2)

def ogSet (l : List (Option String × α)) (k : Option String) (v : α) :
    List (Option String × α) :=
  l.map (fun p => if p.1 == k then (p.1, v) else p)

/-- The accumulation loop of `collapseExtendedTypes` (lines 514–536),
also recording how to rebuild the original array (whose member objects the
source mutates in place). -/
def collapseGo (fuel : Nat) :
    List TypeSchema → List (Option String × TypeSchema) → List CollapseSlot →
    List (Option String × TypeSchema) × List CollapseSlot
  | [], assoc, slots => (assoc, slots)
  | t :: ts, assoc, slots =>
    let k := collapseKey t
    let t' := t.withFs { t.fs with ext := none }
    match ogGet assoc k with
    | some cur =>
      collapseGo fuel ts (ogSet assoc k (mergeTS collapseMode fuel cur t')) (slots ++ [.later t'])
    | none =>
      collapseGo fuel ts (assoc ++ [(k, t')]) (slots ++ [.first k])

/-- `collapseExtendedTypes`: one record per `$extend`-or-id group, in
first-seen order (`Object.values` order), plus the rebuild information. -/
def collapseExtendedTypes (fuel : Nat) (types : List TypeSchema) :
    List TypeSchema × List CollapseSlot :=
  let (assoc, slots) := collapseGo fuel types [] []
  (assoc.map (·.2), slots)

/-- The in-place loop of `extendImportedTypes` (lines 538–563): each type
with a truthy `$import` is merged with the first type in the (current,
already partially updated) list whose `id` or `name` matches the import's
first dot-segment. -/
def extendImportedTypesGo (fuel : Nat) : Nat → Nat → List TypeSchema → List TypeSchema
  | 0, _, cur => cur
  | steps + 1, i, cur =>
    match cur.get? i with
    | none => cur
    | some t =>
      let cur' :=
        if truthyS t.fs.imp then
          let seg := ((jsSplitChar (t.fs.imp.getD "") '.').headD "")
          match cur.find? (fun x => x.fs.id == some seg || x.fs.name == some seg) with
          | some impT => cur.set i (mergeTS importMode fuel t impT)
          | none => cur
        else cur
      extendImportedTypesGo fuel steps (i + 1) cur'

def extendImportedTypes (fuel : Nat) (types : List TypeSchema) : List TypeSchema :=
  extendImportedTypesGo fuel types.length 0 types

/-! ## Function/parameter helpers -/

/-- `x.name === func.async` for the designated-callback search. -/
def asyncNameMatch (async : Option AsyncV) (name : Option String) : Bool :=
  match async with
  | none => name == none
  | some (.s s) => name == some s
  | some (.b _) => false

/-- JavaScript truthiness of an optional number (`0` is falsy). -/
def truthyN : Option Nat → Bool
  | none => false
  | some n => n ≠ 0

/-- The copy `{...param, optional: false}` (line 717). -/
def unopt (p : TypeSchema) : TypeSchema :=
  p.withFs { p.fs with optional := some false }

/-- The partition loop of `convertFunction` (lines 710–721): parameters at an
index before the first mandatory one become copies marked non-optional, the
rest keep their order. -/
def partitionLeading (ps : List TypeSchema) (k : Int) :
    List TypeSchema × List TypeSchema :=
  ps.enum.foldl
    (fun acc p =>
      if k > Int.ofNat p.1 then (acc.1 ++ [unopt p.2], acc.2)
      else (acc.1, acc.2 ++ [p.2]))
    ([], [])

/-- The rendered value of an enum entry inside a template literal
(a record renders as `[object Object]`). -/
def enumStrVal : EnumVal → String
  | .str s => s
  | .obj _ _ => "[object Object]"

/-- Remove the first `?` character of a list of characters. -/
def removeQonce : List Char → List Char
  | [] => []
  | ch :: rest => if ch = '?' then rest else ch :: removeQonce rest

/-- `x.replace(/\?(?![\s\S]*\n)/, '')`: drop the first `?` that has no
newline anywhere after it, i.e. the first `?` of the last line. -/
def removeFirstTailQ (s : String) : String :=
  let lines := jsSplitChar s '\n'
  let lastL := lines.getLastD ""
  String.intercalate "\n" (lines.dropLast ++ [String.mk (removeQonce lastL.data)])

/-- `convertSingleEvent` (lines 750–765). -/
def convertSingleEvent (c : Ctx) (parameters : List String) (returnType : String)
    (extra : Option (List String)) (name : String) : ConvM String := do
  match extra with
  | some ex =>
    let listenerName := "_" ++ convertName (c.ns ++ "_" ++ name ++ "_Event")
    pushAdditional ("interface " ++ listenerName ++ "<TCallback = (" ++
      String.intercalate ", " parameters ++ ") => " ++ returnType ++ "> \x7b\n" ++
      "    addListener(cb: TCallback, " ++ String.intercalate ", " ex ++ "): void;\n" ++
      "    removeListener(cb: TCallback): void;\n" ++
      "    hasListener(cb: TCallback): boolean;\n\x7d")
    pure listenerName
  | none =>
    pure ("WebExtEvent<(" ++ String.intercalate ", " parameters ++ ") => " ++ returnType ++ ">")

/-- `if (type.name && !type.id) type.id = type.name` (line 384). -/
def adoptEnumId (t : TypeSchema) : TypeSchema :=
  if truthyS t.fs.name && !truthyS t.fs.id then t.withFs { t.fs with id := t.fs.name } else t

/-- `parameter.id = name` (line 619). -/
def setParamId (p : TypeSchema) (nm : Option String) : TypeSchema :=
  p.withFs { p.fs with id := nm }

/-- Stitch the updated non-enum choices back into the original choice list
(the enum choices were only read, the synthetic node is discarded). -/
def stitchChoices : List TypeSchema → List TypeSchema → List TypeSchema
  | [], _ => []
  | ch :: chs, upd =>
    if ch.fs.enumV.isSome then ch :: stitchChoices chs upd
    else
      match upd with
      | u :: us => u :: stitchChoices chs us
      | [] => ch :: stitchChoices chs []

/-! ## The recursive conversion functions

All in-place mutation of schema nodes becomes explicit: every function
returns the updated node(s) beside its output string.  The recursion is
fuel-indexed; every recursive call consumes one unit. -/

mutual

/-- `convertType` (lines 342–512): the escape hatches, the dispatch body, and
the final cannot-handle check. -/
def convertType (c : Ctx) : Nat → TypeSchema → Bool → ConvM (String × TypeSchema)
  | 0, _, _ => throw .outOfFuel
  | fuel + 1, t, root => do
    if truthyS t.fs.converterTypeOverride then
      pure (t.fs.converterTypeOverride.getD "", t)
    else if truthyS t.fs.converterAdditionalType && truthyS t.fs.id then do
      pushAdditional (t.fs.converterAdditionalType.getD "")
      pure (t.fs.id.getD "", t)
    else do
      let (out, t') ← convertTypeCore c fuel t root
      if out == "" then throw (.cannotHandle t')
      else pure (out, t')

/-- The dispatch body of `convertType` (lines 351–506); an unhandled node
yields `""`, turned into the error by `convertType`. -/
def convertTypeCore (c : Ctx) : Nat → TypeSchema → Bool → ConvM (String × TypeSchema)
  | 0, _, _ => throw .outOfFuel
  | fuel + 1, t, root => do
    match t.fs.choices with
    | some cs =>
      -- split enum choices from the others, collecting all enum values
      let (nonEnums, enums) := cs.foldl
        (fun acc ch =>
          match ch.fs.enumV with
          | some es => (acc.1, acc.2 ++ es)
          | none => (acc.1 ++ [ch], acc.2))
        ([], [])
      let toCompile := nonEnums ++
        (if enums.length > 0 then [TypeSchema.mk { id := t.fs.id, enumV := some enums }] else [])
      let (outs, upd) ← convertChoicesGo c fuel toCompile
      let updatedChoices := stitchChoices cs (upd.take nonEnums.length)
      pure (String.intercalate " | " (uniqWith (fun a b => a == b) outs),
            t.withFs { t.fs with choices := some updatedChoices })
    | none =>
    match t.fs.enumV with
    | some es =>
      let t := adoptEnumId t
      if root then
        let normalized := es.map (fun x =>
          match x with
          | .str s => ("", s)
          | .obj n d => (commentFromNameDesc c d, n))
        let multiline := normalized.length > 2 || normalized.any (fun x => x.1.data.contains '\n')
        let body := normalized.enum.foldl
          (fun acc p => acc ++ p.2.1 ++ (if p.1 > 0 then "|" else "") ++
            "\"" ++ p.2.2 ++ "\"" ++
            (if multiline && p.1 ≠ normalized.length - 1 then "\n" else ""))
          (if multiline then "\n" else "")
        pure (body ++ ";", t)
      else
        if truthyS t.fs.id then do
          let typeName := "_" ++ convertName (t.fs.id.getD "")
          let comment := commentFromSchema c t
          let (rootOut, t2) ← convertType c fuel t true
          pushAdditional (comment ++ "type " ++ typeName ++ " = " ++ rootOut)
          pure (typeName, t2)
        else
          pure (String.intercalate " | " (es.map (fun x => "\"" ++ enumStrVal x ++ "\"")), t)
    | none =>
    if truthyS t.fs.typ then
      let ty := t.fs.typ.getD ""
      if ty == "object" then
        if t.fs.functions.isSome || t.fs.events.isSome then
          convertClass c fuel t
        else if t.fs.properties.isSome || t.fs.patternProperties.isSome then do
          let (props, t') ← convertObjectProperties c fuel t
          if props.length > 0 then
            pure ("\x7b\n" ++ String.intercalate ";\n" props ++ ";\n\x7d", t')
          else pure ("object", t')
        else if truthyS t.fs.isInstanceOf then
          match t.fs.additionalProperties with
          | some ap =>
            if ap.fs.typ == some "any" then
              if jsToLower (t.fs.isInstanceOf.getD "") == "window" then
                pure (t.fs.isInstanceOf.getD "", t)
              else
                pure ("object/*" ++ t.fs.isInstanceOf.getD "" ++ "*/", t)
            else do
              let r ← convertRef c (t.fs.isInstanceOf.getD "")
              pure (r, t)
          | none => do
            let r ← convertRef c (t.fs.isInstanceOf.getD "")
            pure (r, t)
        else
          match t.fs.additionalProperties with
          | some ap => do
            let ap1 := ap.withFs { ap.fs with id := t.fs.id }
            let (inner, ap2) ← convertType c fuel ap1 false
            pure ("\x7b[key: string]: " ++ inner ++ "\x7d",
                  t.withFs { t.fs with additionalProperties := some ap2 })
          | none => pure ("object", t)
      else if ty == "array" then
        if truthyN t.fs.minItems && truthyN t.fs.maxItems && t.fs.minItems == t.fs.maxItems then do
          let (el, items') ← convertType c fuel (t.fs.items.getD emptyTS) false
          pure ("[" ++ String.intercalate ", " (List.replicate (t.fs.minItems.getD 0) el) ++ "]",
                t.withFs { t.fs with items := t.fs.items.map (fun _ => items') })
        else
          match t.fs.items with
          | some it => do
            let it1 := it.withFs { it.fs with id := t.fs.id }
            let (arrayType, it2) ← convertType c fuel it1 false
            let simple := !(arrayType.data.contains '\n' || arrayType.data.contains ';' ||
              arrayType.data.contains ',' || arrayType.data.contains '\"')
            pure ((if simple then arrayType ++ "[]" else "Array<" ++ arrayType ++ ">"),
                  t.withFs { t.fs with items := some it2 })
          | none => pure ("", t)
      else if ty == "function" then
        convertFunction c fuel t true false
      else if SIMPLE_TYPES.contains ty then
        pure (convertPrimitive ty, t)
      else pure ("", t)
    else if truthyS t.fs.ref then do
      let r ← convertRef c (t.fs.ref.getD "")
      pure (r, t)
    else if truthyV t.fs.value then
      pure (typeofV (t.fs.value.getD (.str "")), t)
    else pure ("", t)

/-- Conversion of each (non-enum plus synthetic) choice: compile, then map a
compiled `any` to `object`. -/
def convertChoicesGo (c : Ctx) : Nat → List TypeSchema → ConvM (List String × List TypeSchema)
  | 0, _ => throw .outOfFuel
  | _ + 1, [] => pure ([], [])
  | fuel + 1, x :: xs => do
    let (y, x') ← convertType c fuel x false
    let y := if y == "any" then "object" else y
    let (ys, xs') ← convertChoicesGo c fuel xs
    pure (y :: ys, x' :: xs')

/-- `convertClass` (lines 246–260). -/
def convertClass (c : Ctx) : Nat → TypeSchema → ConvM (String × TypeSchema)
  | 0, _ => throw .outOfFuel
  | fuel + 1, t => do
    let (props, t1) ← convertObjectProperties c fuel t
    let (funcStrs, funcs') ← convertClassFuncs c fuel (t1.fs.functions.getD [])
    let (eventStrs, events') ← convertClassEvents c fuel (t1.fs.events.getD [])
    let all := props ++ funcStrs ++ eventStrs
    pure ("\x7b\n" ++ (String.intercalate ";\n" all ++ ";") ++ "\n\x7d",
          t1.withFs { t1.fs with
            functions := t1.fs.functions.map (fun _ => funcs'),
            events := t1.fs.events.map (fun _ => events') })

def convertClassFuncs (c : Ctx) : Nat → List TypeSchema → ConvM (List String × List TypeSchema)
  | 0, _ => throw .outOfFuel
  | _ + 1, [] => pure ([], [])
  | fuel + 1, f :: fs => do
    let (s, f') ← convertFunction c fuel f true true
    let (ss, fs') ← convertClassFuncs c fuel fs
    pure (s :: ss, f' :: fs')

def convertClassEvents (c : Ctx) : Nat → List TypeSchema → ConvM (List String × List TypeSchema)
  | 0, _ => throw .outOfFuel
  | _ + 1, [] => pure ([], [])
  | fuel + 1, e :: es => do
    let (s, e') ← convertEvent c fuel e true
    let (ss, es') ← convertClassEvents c fuel es
    pure (s :: ss, e' :: es')

/-- `convertObjectProperties` (lines 262–308): the object-level `$import`
merge, then the plain and pattern properties. -/
def convertObjectProperties (c : Ctx) : Nat → TypeSchema → ConvM (List String × TypeSchema)
  | 0, _ => throw .outOfFuel
  | fuel + 1, t0 => do
    let t :=
      if truthyS t0.fs.imp then
        let seg := ((jsSplitChar (t0.fs.imp.getD "") '.').headD "")
        let curTypes := ((jsGet c.namespaces c.ns).bind (·.types)).getD []
        match curTypes.find? (fun x => x.fs.id == some seg || x.fs.name == some seg) with
        | some impT => mergeTS importMode fuel t0 impT
        | none => t0
      else t0
    let (propStrs, props') ← convertObjPropsGo c fuel t.fs.id (t.fs.properties.getD [])
    let (patStrs, pats') ← convertPatPropsGo c fuel (t.fs.patternProperties.getD [])
    pure (propStrs ++ patStrs,
          t.withFs { t.fs with
            properties := t.fs.properties.map (fun _ => props'),
            patternProperties := t.fs.patternProperties.map (fun _ => pats') })

def convertObjPropsGo (c : Ctx) :
    Nat → Option String → List (String × TypeSchema) →
    ConvM (List String × List (String × TypeSchema))
  | 0, _, _ => throw .outOfFuel
  | _ + 1, _, [] => pure ([], [])
  | fuel + 1, pid, (nm, pt) :: rest => do
    let pt1 := pt.withFs { pt.fs with
      id := some (tmpl pid ++ (if nm == "properties" then "" else "_" ++ nm)) }
    let comment := commentFromSchema c pt1
    let (ty, pt2) ← convertType c fuel pt1 false
    let s := comment ++ nm ++ (if truthyB pt1.fs.optional then "?" else "") ++ ": " ++ ty
    let (ss, rest') ← convertObjPropsGo c fuel pid rest
    pure (s :: ss, (nm, pt2) :: rest')

def convertPatPropsGo (c : Ctx) :
    Nat → List (String × TypeSchema) → ConvM (List String × List (String × TypeSchema))
  | 0, _ => throw .outOfFuel
  | _ + 1, [] => pure ([], [])
  | fuel + 1, (nm, pt) :: rest => do
    let keyType := if hasSubstr nm.data "\\d".data && !hasSubstr nm.data "a-z".data
      then "number" else "string"
    let (ty, pt') ← convertType c fuel pt false
    let s := "[key: " ++ keyType ++ "]: " ++ ty
    let (ss, rest') ← convertPatPropsGo c fuel rest
    pure (s :: ss, (nm, pt') :: rest')

/-- `convertParameters` (lines 610–624). -/
def convertParamsGo (c : Ctx) :
    Nat → Bool → Option String → List TypeSchema → ConvM (List String × List TypeSchema)
  | 0, _, _, _ => throw .outOfFuel
  | _ + 1, _, _, [] => pure ([], [])
  | fuel + 1, includeName, nm, p :: ps => do
    let pre := if includeName then
        (if truthyS p.fs.name then p.fs.name.getD "" else "[object Object]") ++
        (if truthyB p.fs.optional then "?" else "") ++ ": "
      else ""
    let p1 := setParamId p nm
    let (ty, p2) ← convertType c fuel p1 false
    let (ss, ps') ← convertParamsGo c fuel includeName nm ps
    pure ((pre ++ ty) :: ss, p2 :: ps')

/-- `convertSingleFunction` (lines 626–642); returns the signature and the
updated parameter list of the (copied) function node it was given. -/
def convertSingleFunction (c : Ctx) :
    Nat → String → String → Bool → Bool → TypeSchema → ConvM (String × List TypeSchema)
  | 0, _, _, _, _, _ => throw .outOfFuel
  | fuel + 1, name, returnType, arrow, classy, func => do
    let (params, ps') ← convertParamsGo c fuel true func.fs.name (func.fs.parameters.getD [])
    if arrow then
      pure ((if classy then
          commentFromSchema c func ++ name ++ (if truthyB func.fs.optional then "?" else "")
        else "") ++
        "(" ++ String.intercalate ", " params ++ ")" ++
        (if classy then ":" else " =>") ++ " " ++ returnType, ps')
    else
      if RESERVED.contains name then do
        pushAdditional ("export \x7b_" ++ name ++ " as " ++ name ++ "\x7d;")
        pure (commentFromSchema c func ++ "function _" ++ name ++ "(" ++
          String.intercalate ", " params ++ "): " ++ returnType ++ ";", ps')
      else
        pure (commentFromSchema c func ++ "function " ++ name ++ "(" ++
          String.intercalate ", " params ++ "): " ++ returnType ++ ";", ps')

/-- Lines 646–698 of `convertFunction`: determine the return type, removing a
designated callback parameter and converting it to a promise. -/
def convertFunctionReturn (c : Ctx) : Nat → TypeSchema → ConvM (String × TypeSchema)
  | 0, _ => throw .outOfFuel
  | fuel + 1, f0 => do
    match f0.fs.returns with
    | some ret =>
      let cbSplit :=
        match f0.fs.parameters with
        | none => none
        | some ps =>
          splitFirst (fun (x : TypeSchema) => x.fs.typ == some "function" && asyncNameMatch f0.fs.async x.fs.name) ps
      let f1 := match cbSplit with
        | some (pre, _, post) => f0.withFs { f0.fs with parameters := some (pre ++ post) }
        | none => f0
      let (rt0, ret') ← convertType c fuel ret false
      let rt := if truthyB ret.fs.optional && !ALREADY_OPTIONAL_RETURNS.contains rt0
        then rt0 ++ " | void" else rt0
      pure (rt, f1.withFs { f1.fs with returns := some ret' })
    | none =>
      let f1 := if f0.fs.async == none then
        f0.withFs { f0.fs with async := some (.s "callback") } else f0
      let cbSplit :=
        match f1.fs.parameters with
        | none => none
        | some ps =>
          splitFirst (fun (x : TypeSchema) => x.fs.typ == some "function" && asyncNameMatch f1.fs.async x.fs.name) ps
      match cbSplit with
      | some (pre, cb, post) => do
        let f2 := f1.withFs { f1.fs with parameters := some (pre ++ post) }
        let (paramStrs, _) ← convertParamsGo c fuel false f2.fs.name (cb.fs.parameters.getD [])
        let paramStrs2 ←
          if paramStrs.length > 1 then do
            warn ("Warning: Promises cannot return more than one value: " ++ tmpl f2.fs.name ++ ".")
            pure ["object"]
          else pure paramStrs
        let promiseReturn := match paramStrs2.head? with
          | some s => if s == "" then "void" else s
          | none => "void"
        let rt := "Promise<" ++ promiseReturn ++ ">"
        pure (rt, f2.withFs { f2.fs with
          returns := some (TypeSchema.mk { converterTypeOverride := some rt }),
          async := none })
      | none =>
        if truthyA f1.fs.async && f1.fs.async != some (.s "callback") then
          pure ("Promise<any>", f1)
        else
          pure ("void", f1)

/-- The overload loop of `convertFunction` (lines 729–735), threading the
shared (mutated) parameter objects through the iterations. -/
def overloadGo (c : Ctx) :
    Nat → String → String → Bool → Bool → TypeSchema →
    List TypeSchema → List TypeSchema → Nat → ConvM (String × List TypeSchema)
  | 0, _, _, _, _, _, _, _, _ => throw .outOfFuel
  | fuel + 1, name, rt, arrow, classy, f, lead, rest, i =>
    if i < lead.length then do
      let params := lead.drop i ++ rest
      let (sig, params') ←
        convertSingleFunction c fuel name rt arrow classy (f.withFs { f.fs with parameters := some params })
      let lead' := lead.take i ++ params'.take (lead.length - i)
      let rest' := params'.drop (lead.length - i)
      let (out2, rest'') ← overloadGo c fuel name rt arrow classy f lead' rest' (i + 1)
      pure ("\n" ++ sig ++ (if classy then ";\n" else "") ++ out2, rest'')
    else pure ("", rest)

/-- `convertFunction` (lines 644–738). -/
def convertFunction (c : Ctx) : Nat → TypeSchema → Bool → Bool → ConvM (String × TypeSchema)
  | 0, _, _, _ => throw .outOfFuel
  | fuel + 1, f0, arrow, classy => do
    let (returnType, f) ← convertFunctionReturn c fuel f0
    let ps := f.fs.parameters.getD []
    let k := jsFindIndex ps (fun x => !truthyB x.fs.optional)
    let (leadingOptionals, rest) := partitionLeading ps k
    let (base, rest1) ← convertSingleFunction c fuel (tmpl f.fs.name) returnType arrow classy
      (f.withFs { f.fs with parameters := some rest })
    let (loopOut, restF) ← overloadGo c fuel (tmpl f.fs.name) returnType arrow classy f
      leadingOptionals rest1 0
    let leadCount := ps.length - rest.length
    pure (base ++ loopOut,
          f.withFs { f.fs with
            parameters := f.fs.parameters.map (fun _ => ps.take leadCount ++ restF) })

/-- The leading-optional union loop of `convertEvent` (lines 789–795). -/
def eventUnionGo (c : Ctx) :
    Nat → List String → String → Option (List String) → String → Nat → ConvM String
  | 0, _, _, _, _, _ => throw .outOfFuel
  | fuel + 1, params, rt, extra, name, i =>
    match params.get? i with
    | some p =>
      if jsEndsWith p "?" && params.length > i + 1 then do
        let s ← convertSingleEvent c (params.drop (i + 1)) rt extra name
        let restOut ← eventUnionGo c fuel params rt extra name (i + 1)
        pure ("\n| " ++ s ++ restOut)
      else pure ""
    | none => pure ""

/-- `convertEvent` (lines 767–812). -/
def convertEvent (c : Ctx) : Nat → TypeSchema → Bool → ConvM (String × TypeSchema)
  | 0, _, _ => throw .outOfFuel
  | fuel + 1, ev, classy => do
    let (rt, ev1) ←
      match ev.fs.returns with
      | some r => do
        let (s, r') ← convertType c fuel r false
        let s := if truthyB r.fs.optional && !ALREADY_OPTIONAL_RETURNS.contains s
          then s ++ " | void" else s
        pure (s, ev.withFs { ev.fs with returns := some r' })
      | none => pure ("void", ev)
    let (extra, ev2) ←
      match ev1.fs.extraParameters with
      | some eps => do
        let (strs, eps') ← convertParamsGo c fuel true none eps
        pure (some strs, ev1.withFs { ev1.fs with extraParameters := some eps' })
      | none => pure (none, ev1)
    let (parameters, ps') ← convertParamsGo c fuel true none (ev2.fs.parameters.getD [])
    let ev3 := ev2.withFs { ev2.fs with parameters := ev2.fs.parameters.map (fun _ => ps') }
    let unionOut ← eventUnionGo c fuel parameters rt extra (tmpl ev3.fs.name) 0
    let parameters2 := parameters.enum.map (fun p =>
      if parameters.length > 0 && p.1 < parameters.length - 1 then removeFirstTailQ p.2 else p.2)
    let main ← convertSingleEvent c parameters2 rt extra (tmpl ev3.fs.name)
    let out0 := (if !classy then "const " else "") ++ tmpl ev3.fs.name ++ ": " ++ main ++ unionOut ++
      (if !classy && truthyB ev3.fs.optional then " | undefined" else "") ++
      (if !classy then ";" else "")
    pure (commentFromSchema c ev3 ++ out0, ev3)

end

/-! ## Namespace emission -/

/-- Rebuild the original (table-aliased) types array after conversion:
group-first slots take the final merged-and-converted object, later group
members only lost their `$extend` key. -/
def rebuildSlots (final : List TypeSchema) : List CollapseSlot → Nat → List TypeSchema
  | [], _ => []
  | .first _ :: rest, j => ((final.get? j).getD emptyTS) :: rebuildSlots final rest (j + 1)
  | .later t :: rest, j => t :: rebuildSlots final rest j

/-- The per-type declaration loop of `convertTypes` (lines 572–596). -/
def convertTypesDeclsGo (c : Ctx) (fuel : Nat) :
    List TypeSchema → ConvM (List String × List TypeSchema)
  | [] => pure ([], [])
  | t :: ts => do
    let (conv0, t') ← convertType c fuel t true
    let conv := if t'.fs.id == some conv0 then "any" else conv0
    let comment := commentFromSchema c t'
    let decl :=
      if (t'.fs.functions.isSome || t'.fs.events.isSome) ||
          (t'.fs.typ == some "object" && !truthyS t'.fs.isInstanceOf) then
        comment ++ "interface " ++ tmpl t'.fs.id ++ " " ++ conv
      else if t'.fs.enumV.isSome then
        comment ++ "type " ++ convertName (t'.fs.id.getD "") ++ " = " ++ conv
      else
        comment ++ "type " ++ tmpl t'.fs.id ++ " = " ++ conv ++ ";"
    let (decls, ts') ← convertTypesDeclsGo c fuel ts
    pure (decl :: decls, t' :: ts')

/-- `convertTypes` (lines 565–598), also producing the updated state of the
namespace's (aliased) types array. -/
def convertTypes (c : Ctx) (fuel : Nat) :
    Option (List TypeSchema) → ConvM (List String × Option (List TypeSchema))
  | none => pure ([], none)
  | some types0 => do
    let (collapsed, slots) := collapseExtendedTypes fuel types0
    let collapsed2 := extendImportedTypes fuel collapsed
    let (decls, collapsed3) ← convertTypesDeclsGo c fuel collapsed2
    pure (decls, some (rebuildSlots collapsed3 slots 0))

def convertPropsGo (c : Ctx) (fuel : Nat) :
    List (String × TypeSchema) → ConvM (List String × List (String × TypeSchema))
  | [] => pure ([], [])
  | (nm, pt) :: rest => do
    let comment := commentFromSchema c pt
    let (ty, pt') ← convertType c fuel pt false
    let s := comment ++ "const " ++ nm ++ ": " ++ ty ++
      (if truthyB pt.fs.optional then " | undefined" else "") ++ ";"
    let (ss, rest') ← convertPropsGo c fuel rest
    pure (s :: ss, (nm, pt') :: rest')

/-- `convertProperties` (lines 600–608). -/
def convertProperties (c : Ctx) (fuel : Nat) :
    Option (List (String × TypeSchema)) →
    ConvM (List String × Option (List (String × TypeSchema)))
  | none => pure ([], none)
  | some ps => do
    let (ss, ps') ← convertPropsGo c fuel ps
    pure (ss, some ps')

def convertFuncsGo (c : Ctx) (fuel : Nat) :
    List TypeSchema → ConvM (List String × List TypeSchema)
  | [] => pure ([], [])
  | f :: fs => do
    let (s, f') ← convertFunction c fuel f false false
    let (ss, fs') ← convertFuncsGo c fuel fs
    pure (s :: ss, f' :: fs')

/-- `convertFunctions` (lines 740–747). -/
def convertFunctions (c : Ctx) (fuel : Nat) :
    Option (List TypeSchema) → ConvM (List String × Option (List TypeSchema))
  | none => pure ([], none)
  | some fs => do
    let (ss, fs') ← convertFuncsGo c fuel fs
    pure (ss, some fs')

def convertEventsGo (c : Ctx) (fuel : Nat) :
    List TypeSchema → ConvM (List String × List TypeSchema)
  | [] => pure ([], [])
  | e :: es => do
    let (s, e') ← convertEvent c fuel e false
    let (ss, es') ← convertEventsGo c fuel es
    pure (s :: ss, e' :: es')

/-- `convertEvents` (lines 814–821). -/
def convertEvents (c : Ctx) (fuel : Nat) :
    Option (List TypeSchema) → ConvM (List String × Option (List TypeSchema))
  | none => pure ([], none)
  | some es => do
    let (ss, es') ← convertEventsGo c fuel es
    pure (ss, some es')

/-- An empty namespace record (unreachable default for table lookups). -/
def emptyNS : NamespaceSchema := { namespaceName := "" }

/-- `convertNamespace` (lines 823–894): the namespace-level `$import` merge,
sink reset, member conversion, sink de-duplication, doc header and block
assembly.  Returns the text appended to `this.out` and the updated
namespace table. -/
def convertNamespace (aliases : List (String × String)) (d2m toDoc : String → String)
    (fuel : Nat) (tbl : List (String × NamespaceSchema)) (ns : String) :
    ConvM (String × List (String × NamespaceSchema)) := do
  let data0 := (jsGet tbl ns).getD emptyNS
  let data1 :=
    if truthyS data0.imp then
      match jsGet tbl (data0.imp.getD "") with
      | some target => mergeNS fuel data0 target
      | none => data0
    else data0
  let tbl1 := jsSet tbl ns data1
  let c : Ctx := ⟨aliases, tbl1, ns, d2m, toDoc⟩
  modify (fun st => { st with additionalTypes := [] })
  let (types, types') ← convertTypes c fuel data1.types
  let (props, props') ← convertProperties c fuel data1.properties
  let (funcs, funcs') ← convertFunctions c fuel data1.functions
  let (events, events') ← convertEvents c fuel data1.events
  modify (fun st => { st with additionalTypes := uniqWith (fun a b => a == b) st.additionalTypes })
  let st ← get
  let addl := st.additionalTypes
  let doclines0 := if truthyS data1.description then [d2m (data1.description.getD "")] else []
  let doclines1 := doclines0 ++
    (if data1.permissions.isSome && (data1.permissions.getD []).length > 0 then
      let manifestKeys := ((data1.permissions.getD []).filter (fun p => jsStartsWith p "manifest:")).map
        (fun p => p.drop 9)
      let permissions := (data1.permissions.getD []).filter (fun p => !jsStartsWith p "manifest:")
      (if permissions.length > 0 then
        ["Permissions: " ++ String.intercalate ", " (permissions.map (fun p => "`" ++ p ++ "`"))]
      else []) ++
      (if manifestKeys.length > 0 then
        ["Manifest keys: " ++ String.intercalate ", " (manifestKeys.map (fun p => "`" ++ p ++ "`"))]
      else [])
    else [])
  let contexts := formatContexts data1.allowedContexts true
  let doclines2 := doclines1 ++ (if contexts ≠ "" then [contexts] else [])
  let header := if doclines2.length > 0 then
    toDoc (String.intercalate "\n\n" doclines2) ++ "\n" else ""
  let out0 := header ++ "declare namespace browser." ++ data1.namespaceName ++ " \x7b\n" ++
    (if types.length > 0 then
      "/* " ++ data1.namespaceName ++ " types */\n" ++ String.intercalate "\n\n" types ++ "\n\n"
    else "") ++
    (if addl.length > 0 then String.intercalate "\n\n" addl ++ "\n\n" else "") ++
    (if props.length > 0 then
      "/* " ++ data1.namespaceName ++ " properties */\n" ++ String.intercalate "\n\n" props ++ "\n\n"
    else "") ++
    (if funcs.length > 0 then
      "/* " ++ data1.namespaceName ++ " functions */\n" ++ String.intercalate "\n\n" funcs ++ "\n\n"
    else "") ++
    (if events.length > 0 then
      "/* " ++ data1.namespaceName ++ " events */\n" ++ String.intercalate "\n\n" events ++ "\n\n"
    else "")
  let out1 := out0.dropRight 1 ++ "\x7d\n\n"
  let data2 := { data1 with
    types := types', properties := props', functions := funcs', events := events' }
  pure (out1, jsSet tbl1 ns data2)

def convertGo (aliases : List (String × String)) (d2m toDoc : String → String) (fuel : Nat) :
    List String → List (String × NamespaceSchema) → String →
    ConvM (String × List (String × NamespaceSchema))
  | [], tbl, out => pure (out, tbl)
  | k :: ks, tbl, out => do
    let (o, tbl') ← convertNamespace aliases d2m toDoc fuel tbl k
    convertGo aliases d2m toDoc fuel ks tbl' (out ++ o)

/-- `convert` (lines 215–221): every namespace of the table is set as current
and converted; the produced text blocks are concatenated. -/
def convert (aliases : List (String × String)) (d2m toDoc : String → String) (fuel : Nat)
    (tbl : List (String × NamespaceSchema)) :
    ConvM (String × List (String × NamespaceSchema)) :=
  convertGo aliases d2m toDoc fuel (jsKeys tbl) tbl ""

/-! ## The constructor's namespace-table merge (lines 153–205) -/

/-- One namespace partial-record folded into the table. -/
def mergeFragmentNS (aliases : List (String × String))
    (tbl : List (String × NamespaceSchema)) (nsRec : NamespaceSchema) :
    List (String × NamespaceSchema) :=
  let nm := (jsGet aliases nsRec.namespaceName).getD nsRec.namespaceName
  let res0 := match jsGet tbl nm with
    | some r => r
    | none =>
      { namespaceName := nm, types := some [], properties := some [],
        functions := some [], events := some [], description := nsRec.description,
        permissions := some [], allowedContexts := some [] }
  let res1 := match nsRec.types with
    | some ts => { res0 with types := some (res0.types.getD [] ++ ts) }
    | none => res0
  let res2 := match nsRec.properties with
    | some ps => { res1 with properties := some (jsAssign (res1.properties.getD []) ps) }
    | none => res1
  let res3 := match nsRec.functions with
    | some fs => { res2 with functions := some (res2.functions.getD [] ++ fs) }
    | none => res2
  let res4 := match nsRec.events with
    | some es => { res3 with events := some (res3.events.getD [] ++ es) }
    | none => res3
  let res5 := match nsRec.permissions with
    | some ps => { res4 with permissions := some (res4.permissions.getD [] ++ ps) }
    | none => res4
  let res6 := match nsRec.allowedContexts with
    | some cs => { res5 with allowedContexts := some (res5.allowedContexts.getD [] ++ cs) }
    | none => res5
  let res7 := if truthyS nsRec.imp then { res6 with imp := nsRec.imp } else res6
  jsSet tbl nm res7

/-- The table built by the `Converter` constructor from the collected
fragment documents. -/
def buildNamespaces (aliases : List (String × String))
    (schemaData : List (String × List NamespaceSchema)) :
    List (String × NamespaceSchema) :=
  schemaData.foldl (fun tbl frag => frag.2.foldl (mergeFragmentNS aliases) tbl) []

/-! ## Specification-side definitions

Independent formulations of what the claims assert, to be compared with the
code-side definitions above. -/

/-- The leading optional parameters (claim formulation): the longest optional
prefix, each copy forced mandatory. -/
def specLeading (ps : List TypeSchema) : List TypeSchema :=
  (ps.takeWhile (fun p => truthyB p.fs.optional)).map unopt

/-- The remaining parameters after the optional prefix (claim formulation). -/
def specRest (ps : List TypeSchema) : List TypeSchema :=
  ps.dropWhile (fun p => truthyB p.fs.optional)

/-- The signature-list join of `convertFunction`: the base signature followed
by each overload behind a newline (classy overloads also gain `;\n`). -/
def joinSignatures (classy : Bool) (base : String) (overloads : List String) : String :=
  base ++ overloads.foldr (fun s acc => "\n" ++ s ++ (if classy then ";\n" else "") ++ acc) ""

/-- The non-enum choices of a `choices` list (claim formulation). -/
def specNonEnumChoices (cs : List TypeSchema) : List TypeSchema :=
  cs.filter (fun ch => ch.fs.enumV == none)

/-- The concatenation of all enum value sets of a `choices` list (claim
formulation). -/
def specChoiceEnums (cs : List TypeSchema) : List EnumVal :=
  (cs.filter (fun ch => ch.fs.enumV.isSome)).foldr (fun ch acc => ch.fs.enumV.getD [] ++ acc) []

/-- The `choices` compilation as the (amended) claim words it: non-enum
choices in order, then — when at least one enum **value** was collected — one
synthetic enum node carrying the parent's identifier; compile each, map
`any` to `object`, de-duplicate, join with a pipe. -/
def specChoicesCompile (c : Ctx) (n : Nat) (t : TypeSchema) (cs : List TypeSchema) :
    ConvM (String × TypeSchema) := do
  let nonEnums := specNonEnumChoices cs
  let enums := specChoiceEnums cs
  let toCompile := nonEnums ++
    (if enums.length > 0 then [TypeSchema.mk { id := t.fs.id, enumV := some enums }] else [])
  let (outs, upd) ← convertChoicesGo c n toCompile
  let out := String.intercalate " | " (uniqWith (fun a b => a == b) outs)
  let t' := t.withFs { t.fs with choices := some (stitchChoices cs (upd.take nonEnums.length)) }
  if out == "" then throw (.cannotHandle t') else pure (out, t')

/-- The `choices` compilation exactly as the original claim words it: the
synthetic enum node is appended whenever at least one enum **child** exists,
its value set possibly empty. -/
def specChoicesCompileClaim (c : Ctx) (n : Nat) (t : TypeSchema) (cs : List TypeSchema) :
    ConvM (String × TypeSchema) := do
  let nonEnums := specNonEnumChoices cs
  let enums := specChoiceEnums cs
  let toCompile := nonEnums ++
    (if cs.any (fun ch => ch.fs.enumV.isSome) then
      [TypeSchema.mk { id := t.fs.id, enumV := some enums }] else [])
  let (outs, upd) ← convertChoicesGo c n toCompile
  let out := String.intercalate " | " (uniqWith (fun a b => a == b) outs)
  let t' := t.withFs { t.fs with choices := some (stitchChoices cs (upd.take nonEnums.length)) }
  if out == "" then throw (.cannotHandle t') else pure (out, t')

/-- `$extend` deletion (claim formulation). -/
def stripExt (t : TypeSchema) : TypeSchema := t.withFs { t.fs with ext := none }

/-- Keep-first de-duplication of the group keys (claim formulation of
"one record per group"). -/
def dedupO : List (Option String) → List (Option String)
  | [] => []
  | k :: ks => k :: dedupO (ks.filter (fun x => x ≠ k))
termination_by l => l.length
decreasing_by
  simp only [List.length_cons]
  exact Nat.lt_succ_of_le (List.length_filter_le _ _)

/-- The members of one `collapseExtendedTypes` group (claim formulation). -/
def keyGroup (k : Option String) (types : List TypeSchema) : List TypeSchema :=
  types.filter (fun t => collapseKey t == k)

/-- The collapse of one group as the (amended) claim words it: strip
`$extend` everywhere and fold the merge over the members in order. -/
def specGroupCollapse (fuel : Nat) (k : Option String) (types : List TypeSchema) : TypeSchema :=
  match (keyGroup k types).map stripExt with
  | [] => emptyTS
  | t :: ts => ts.foldl (mergeTS collapseMode fuel) t

/-- The whole collapse as the (amended) claim words it. -/
def specCollapse (fuel : Nat) (types : List TypeSchema) : List TypeSchema :=
  (dedupO (types.map collapseKey)).map (fun k => specGroupCollapse fuel k types)

/-- The final `collapsedTypes` association (`Indexable` insertion order) the
loop builds over a processed prefix, expressed per group key. -/
def specAssoc (fuel : Nat) (ts : List TypeSchema) : List (Option String × TypeSchema) :=
  (dedupO (ts.map collapseKey)).map (fun k => (k, specGroupCollapse fuel k ts))

/-- The merge rule exactly as the original claim words it: arrays concatenate
and a non-array field keeps the first defined value (an incoming value never
overwrites). -/
def claimCollapseMode : MergeMode := ⟨.plainConcat, .dstWinsDefined⟩

/-- One group collapsed under the original claim merge rule. -/
def specGroupCollapseClaim (fuel : Nat) (k : Option String) (types : List TypeSchema) : TypeSchema :=
  match (keyGroup k types).map stripExt with
  | [] => emptyTS
  | t :: ts => ts.foldl (mergeTS claimCollapseMode fuel) t

/-- The whole collapse under the original claim merge rule. -/
def specCollapseClaim (fuel : Nat) (types : List TypeSchema) : List TypeSchema :=
  (dedupO (types.map collapseKey)).map (fun k => specGroupCollapseClaim fuel k types)

/-- Base type carrying id A and a string `type` field. -/
def c3t1 : TypeSchema := .mk { id := some "A", typ := some "string" }

/-- Extension of A carrying a conflicting number `type` field. -/
def c3t2 : TypeSchema := .mk { ext := some "A", typ := some "number" }

/-- Alias-resolved namespace key of one fragment record (claim formulation). -/
def resolveNsName (aliases : List (String × String)) (r : NamespaceSchema) : String :=
  (jsGet aliases r.namespaceName).getD r.namespaceName

/-- All occurrences of a namespace key across the fragment documents, in
fragment order (claim formulation). -/
def occsOf (aliases : List (String × String))
    (schemaData : List (String × List NamespaceSchema)) (k : String) :
    List NamespaceSchema :=
  (schemaData.flatMap (·.2)).filter (fun r => resolveNsName aliases r == k)

/-- The table record one namespace key should carry per the (amended) claim:
arrays concatenated over the occurrences, properties assigned last-wins,
`description` from the **first** occurrence, `$import` from the latest
occurrence with a truthy value. -/
def specNSRecord (k : String) (occs : List NamespaceSchema) : Option NamespaceSchema :=
  match occs with
  | [] => none
  | first :: _ => some
    { namespaceName := k
      types := some (occs.flatMap (fun o => o.types.getD []))
      functions := some (occs.flatMap (fun o => o.functions.getD []))
      events := some (occs.flatMap (fun o => o.events.getD []))
      permissions := some (occs.flatMap (fun o => o.permissions.getD []))
      allowedContexts := some (occs.flatMap (fun o => o.allowedContexts.getD []))
      properties := some (occs.foldl (fun acc o =>
        match o.properties with
        | some ps => jsAssign acc ps
        | none => acc) [])
      description := first.description
      imp := occs.foldl (fun acc o => if truthyS o.imp then o.imp else acc) none }

/-- The per-occurrence update of one namespace-table record (the body of the
constructor loop for one fragment record, lines 163–203). -/
def nsStep (nm : String) (prev : Option NamespaceSchema) (nsRec : NamespaceSchema) :
    NamespaceSchema :=
  let res0 := match prev with
    | some r => r
    | none =>
      { namespaceName := nm, types := some [], properties := some [],
        functions := some [], events := some [], description := nsRec.description,
        permissions := some [], allowedContexts := some [] }
  let res1 := match nsRec.types with
    | some ts => { res0 with types := some (res0.types.getD [] ++ ts) }
    | none => res0
  let res2 := match nsRec.properties with
    | some ps => { res1 with properties := some (jsAssign (res1.properties.getD []) ps) }
    | none => res1
  let res3 := match nsRec.functions with
    | some fs => { res2 with functions := some (res2.functions.getD [] ++ fs) }
    | none => res2
  let res4 := match nsRec.events with
    | some es => { res3 with events := some (res3.events.getD [] ++ es) }
    | none => res3
  let res5 := match nsRec.permissions with
    | some ps => { res4 with permissions := some (res4.permissions.getD [] ++ ps) }
    | none => res4
  let res6 := match nsRec.allowedContexts with
    | some cs => { res5 with allowedContexts := some (res5.allowedContexts.getD [] ++ cs) }
    | none => res5
  if truthyS nsRec.imp then { res6 with imp := nsRec.imp } else res6

/-- The function node after the designated callback was removed and the
return type overridden (lines 663–693). -/
def asyncResultF (f : TypeSchema) (pre post : List TypeSchema) (rt : String) : TypeSchema :=
  f.withFs { f.fs with
    parameters := some (pre ++ post),
    returns := some (TypeSchema.mk { converterTypeOverride := some rt }),
    async := none }

/-- A node matching none of the compilation branches of `convertType`. -/
def noCompileBranch (t : TypeSchema) : Prop :=
  truthyS t.fs.converterTypeOverride = false ∧
  (truthyS t.fs.converterAdditionalType && truthyS t.fs.id) = false ∧
  t.fs.choices = none ∧ t.fs.enumV = none ∧
  truthyS t.fs.typ = false ∧ truthyS t.fs.ref = false ∧ truthyV t.fs.value = false

/-! ## Concrete instances used by witnesses and counterexamples -/

/-- A minimal context: no aliases, one namespace `ns`, identity doc helpers. -/
def cW : Ctx := ⟨[], [("ns", { namespaceName := "ns" })], "ns", id, id⟩

/-- Context whose current namespace `baz` is known but `foo` is not. -/
def c5ctx : Ctx := ⟨[], [("baz", { namespaceName := "baz", types := some [] })], "baz", id, id⟩

/-- Context currently inside a known namespace `foo`. -/
def c5ctxSame : Ctx := ⟨[], [("foo", { namespaceName := "foo" })], "foo", id, id⟩

def c10f : TypeSchema :=
  .mk { name := some "f", parameters := some [.mk { name := some "a", typ := some "number" }] }

/-- Fragment occurrence of namespace n carrying description "one". -/
def c4n1 : NamespaceSchema := { namespaceName := "n", description := some "one" }

/-- Later fragment occurrence of namespace n carrying description "two". -/
def c4n2 : NamespaceSchema := { namespaceName := "n", description := some "two" }

/-- One-namespace table whose types use `$extend` (the re-run scenario). -/
def tbl9 : List (String × NamespaceSchema) :=
  [("ns", { namespaceName := "ns", types := some [c3t1, c3t2] })]

/-- Function left by a first visit: return type already synthesized into the
override escape hatch, async marker deleted. -/
def c9f : TypeSchema :=
  .mk { name := some "g",
        returns := some (.mk { converterTypeOverride := some "Promise<number>" }) }

/-- Optional leading string parameter for the overload scenario. -/
def c1pa : TypeSchema := .mk { name := some "a", typ := some "string", optional := some true }

/-- Mandatory number parameter for the overload scenario. -/
def c1pb : TypeSchema := .mk { name := some "b", typ := some "number" }

/-- Function f(a?: string, b: number) with no returns and no async marker. -/
def c1f : TypeSchema := .mk { name := some "f", typ := some "function", parameters := some [c1pa, c1pb] }

/-- Callback with no parameters. -/
def c2cb0 : TypeSchema := .mk { name := some "callback", typ := some "function" }

def c2f0 : TypeSchema :=
  .mk { name := some "g", async := some (.s "callback"), parameters := some [c2cb0] }

def c2p : TypeSchema := .mk { name := some "x", typ := some "number" }

/-- Callback with one number parameter. -/
def c2cb1 : TypeSchema :=
  .mk { name := some "callback", typ := some "function", parameters := some [c2p] }

def c2f1 : TypeSchema :=
  .mk { name := some "g", async := some (.s "callback"), parameters := some [c2cb1] }

def c2q : TypeSchema := .mk { name := some "y", typ := some "string" }

/-- Callback with two parameters. -/
def c2cb2 : TypeSchema :=
  .mk { name := some "callback", typ := some "function", parameters := some [c2p, c2q] }

def c2f2 : TypeSchema :=
  .mk { name := some "g", async := some (.s "callback"), parameters := some [c2cb2] }

/-- A nested enum node with a snake_case identifier. -/
def c6t : TypeSchema := .mk { id := some "my_enum", enumV := some [.str "u", .str "v"] }

/-- Is a conversion result a success? -/
def okB : Except ConvErr ((String × TypeSchema) × ConvState) → Bool
  | .ok _ => true
  | .error _ => false

/-- A choices node whose single enum child has an empty value set. -/
def c7t : TypeSchema := .mk { id := some "x", choices := some [.mk { enumV := some [] }] }

/-- A choices node mixing a plain choice and an enum choice. -/
def c7tb : TypeSchema :=
  .mk { id := some "x",
        choices := some [.mk { typ := some "string" }, .mk { enumV := some [.str "a", .str "b"] }] }

/-! ## Shared lemmas -/

@[simp] theorem fs_mk (f : TSF TypeSchema) : (TypeSchema.mk f).fs = f := rfl

@[simp] theorem withFs_def (t : TypeSchema) (f : TSF TypeSchema) : t.withFs f = .mk f := rfl

theorem run_warn (s : String) (st : ConvState) :
    (warn s).run st = .ok ((), { st with warnings := st.warnings ++ [s] }) := rfl

theorem run_push (s : String) (st : ConvState) :
    (pushAdditional s).run st = .ok ((), { st with additionalTypes := st.additionalTypes ++ [s] }) := rfl

theorem exc_bind_ok {α β : Type} (a : α) (f : α → Except ConvErr β) :
    (Except.ok a >>= f : Except ConvErr β) = f a := rfl

theorem underscore_append_ne_empty (x : String) : ("_" ++ x) ≠ "" := by
  intro h
  have hl := congrArg String.length h
  rw [String.length_append] at hl
  have h1 : "_".length = 1 := rfl
  have h2 : ("" : String).length = 0 := rfl
  omega

theorem pure_ok {α : Type} (x : α) (st : ConvState) (r : α × ConvState)
    (h : (pure x : ConvM α).run st = .ok r) : r = (x, st) := by
  replace h : (Except.ok (x, st) : Except ConvErr (α × ConvState)) = .ok r := h
  cases h
  rfl

theorem push_pure_ok {α : Type} (s : String) (x : α) (st : ConvState) (r : α × ConvState)
    (h : ((do pushAdditional s; pure x) : ConvM α).run st = .ok r) :
    r = (x, { st with additionalTypes := st.additionalTypes ++ [s] }) := by
  replace h : (Except.ok (x, { st with additionalTypes := st.additionalTypes ++ [s] }) :
    Except ConvErr (α × ConvState)) = .ok r := h
  cases h
  rfl

theorem bind_ok_iff {α β : Type} (x : ConvM α) (f : α → ConvM β) (st : ConvState)
    (r : β × ConvState) :
    ((x >>= f).run st = .ok r) ↔
      ∃ a st1, x.run st = .ok (a, st1) ∧ (f a).run st1 = .ok r := by
  rw [StateT.run_bind]
  cases h : x.run st with
  | error e =>
    constructor
    · intro hh; cases hh
    · rintro ⟨a, st1, hh, -⟩; cases hh
  | ok p =>
    constructor
    · intro hh; exact ⟨p.1, p.2, rfl, hh⟩
    · rintro ⟨a, st1, hh, hg⟩
      cases hh
      exact hg

theorem splitFirst_eq_none {α : Type} (p : α → Bool) (l : List α)
    (h : ∀ x ∈ l, p x = false) : splitFirst p l = none := by
  induction l with
  | nil => rfl
  | cons x xs ih =>
    unfold splitFirst
    rw [h x (by simp)]
    simp [ih (fun y hy => h y (by simp [hy]))]

theorem splitFirst_append_cons {α : Type} (p : α → Bool) (pre : List α) (cb : α) (post : List α)
    (hpre : ∀ x ∈ pre, p x = false) (hcb : p cb = true) :
    splitFirst p (pre ++ cb :: post) = some (pre, cb, post) := by
  induction pre with
  | nil =>
    unfold splitFirst
    simp only [List.nil_append]
    simp [hcb]
  | cons x xs ih =>
    unfold splitFirst
    simp only [List.cons_append]
    simp [hpre x (by simp), ih (fun y hy => hpre y (by simp [hy]))]

theorem uniqWith_go_mem {α : Type} (cmp : α → α → Bool) (l acc : List α) (x : α) :
    x ∈ l.foldl (fun acc y => if acc.any (fun z => cmp y z) then acc else acc ++ [y]) acc →
    x ∈ acc ∨ x ∈ l := by
  induction l generalizing acc with
  | nil => intro h; exact Or.inl h
  | cons y ys ih =>
    intro h
    simp only [List.foldl_cons] at h
    rcases ih _ h with hin | hin
    · by_cases hc : acc.any (fun z => cmp y z)
      · rw [if_pos hc] at hin; exact Or.inl hin
      · rw [if_neg hc] at hin
        rcases List.mem_append.1 hin with h1 | h1
        · exact Or.inl h1
        · simp at h1; subst h1; exact Or.inr (by simp)
    · exact Or.inr (by simp [hin])

theorem uniqWith_mem {α : Type} (cmp : α → α → Bool) (l : List α) (x : α) :
    x ∈ uniqWith cmp l → x ∈ l := by
  intro h
  rcases uniqWith_go_mem cmp l [] x h with h1 | h1
  · cases h1
  · exact h1

/-- Strings de-duplicated with the equality comparator contain no
duplicates. -/
theorem uniqWith_beq_nodup (l : List String) :
    (uniqWith (fun a b => a == b) l).Nodup := by
  have key : ∀ (l acc : List String), acc.Nodup →
      (l.foldl (fun acc y => if acc.any (fun z => y == z) then acc else acc ++ [y]) acc).Nodup := by
    intro l
    induction l with
    | nil => intro acc h; exact h
    | cons y ys ih =>
      intro acc h
      simp only [List.foldl_cons]
      by_cases hc : acc.any (fun z => y == z)
      · rw [if_pos hc]; exact ih acc h
      · rw [if_neg hc]
        refine ih _ ?_
        rw [List.nodup_append]
        refine ⟨h, List.nodup_singleton y, ?_⟩
        intro a ha hb
        simp only [List.mem_singleton] at hb
        subst hb
        have : acc.any (fun z => a == z) = true := by
          simp only [List.any_eq_true]
          exact ⟨a, ha, by simp⟩
        exact hc this
  exact key l [] List.nodup_nil

/-- String de-duplication preserves membership. -/
theorem uniqWith_beq_mem_iff (l : List String) (s : String) :
    s ∈ uniqWith (fun a b => a == b) l ↔ s ∈ l := by
  constructor
  · exact uniqWith_mem _ l s
  · intro h
    have key : ∀ (l acc : List String), (s ∈ acc ∨ s ∈ l) →
        s ∈ l.foldl (fun acc y => if acc.any (fun z => y == z) then acc else acc ++ [y]) acc := by
      intro l
      induction l with
      | nil => intro acc h; simpa using h.resolve_right (by simp)
      | cons y ys ih =>
        intro acc h
        simp only [List.foldl_cons]
        by_cases hc : acc.any (fun z => y == z)
        · rw [if_pos hc]
          rcases h with h1 | h1
          · exact ih _ (Or.inl h1)
          · rcases List.mem_cons.1 h1 with h2 | h2
            · subst h2
              simp only [List.any_eq_true] at hc
              obtain ⟨z, hz, hez⟩ := hc
              have : s = z := by simpa using hez
              subst this
              exact ih _ (Or.inl hz)
            · exact ih _ (Or.inr h2)
        · rw [if_neg hc]
          rcases h with h1 | h1
          · exact ih _ (Or.inl (by simp [h1]))
          · rcases List.mem_cons.1 h1 with h2 | h2
            · subst h2; exact ih _ (Or.inl (by simp))
            · exact ih _ (Or.inr h2)
    exact key l [] (Or.inr h)

theorem convertType_ok_ne_empty (c : Ctx) (fuel : Nat) (t : TypeSchema) (root : Bool)
    (st : ConvState) (r : (String × TypeSchema) × ConvState)
    (h : (convertType c fuel t root).run st = .ok r) : r.1.1 ≠ "" := by
  match fuel with
  | 0 => simp [convertType] at h; cases h
  | fuel + 1 =>
    unfold convertType at h
    split at h
    · next h1 =>
      have hr : (pure (t.fs.converterTypeOverride.getD "", t) : ConvM (String × TypeSchema)).run st
          = .ok ((t.fs.converterTypeOverride.getD "", t), st) := rfl
      rw [hr] at h
      cases h
      cases ho : t.fs.converterTypeOverride with
      | none => rw [ho] at h1; simp [truthyS] at h1
      | some s =>
        rw [ho] at h1
        simp only [truthyS] at h1
        simpa [ho] using h1
    · split at h
      · next h2 =>
        rw [Bool.and_eq_true] at h2
        obtain ⟨-, hid⟩ := h2
        have hr : ((do
            pushAdditional (t.fs.converterAdditionalType.getD "")
            pure (t.fs.id.getD "", t)) : ConvM (String × TypeSchema)).run st =
            .ok ((t.fs.id.getD "", t),
              { st with additionalTypes := st.additionalTypes ++ [t.fs.converterAdditionalType.getD ""] }) := rfl
        rw [hr] at h
        cases h
        cases ho : t.fs.id with
        | none => rw [ho] at hid; simp [truthyS] at hid
        | some s =>
          rw [ho] at hid
          simp only [truthyS] at hid
          simpa [ho] using hid
      · rw [StateT.run_bind] at h
        cases hcore : (convertTypeCore c fuel t root).run st with
        | error e => rw [hcore] at h; cases h
        | ok p =>
          rw [hcore] at h
          replace h : StateT.run (if (p.1.1 == "") = true then
              (throw (ConvErr.cannotHandle p.1.2) : ConvM (String × TypeSchema))
            else pure (p.1.1, p.1.2)) p.2 = Except.ok r := h
          split at h
          · cases h
          · next hout =>
            have hr : (pure (p.1.1, p.1.2) : ConvM (String × TypeSchema)).run p.2
                = .ok ((p.1.1, p.1.2), p.2) := rfl
            rw [hr] at h
            cases h
            simpa using hout

theorem take_takeWhile_length {α : Type} (q : α → Bool) (ps : List α) :
    ps.take ((ps.takeWhile q).length) = ps.takeWhile q := by
  induction ps with
  | nil => rfl
  | cons p rest ih =>
    by_cases h : q p
    · simp [List.takeWhile_cons, h, ih]
    · simp [List.takeWhile_cons, h]

theorem drop_takeWhile_length {α : Type} (q : α → Bool) (ps : List α) :
    ps.drop ((ps.takeWhile q).length) = ps.dropWhile q := by
  induction ps with
  | nil => rfl
  | cons p rest ih =>
    by_cases h : q p
    · simp [List.takeWhile_cons, List.dropWhile_cons, h, ih]
    · simp [List.takeWhile_cons, List.dropWhile_cons, h]

theorem partitionLeading_eq (ps : List TypeSchema) (k : Int) :
    partitionLeading ps k = ((ps.take k.toNat).map unopt, ps.drop k.toNat) := by
  have key : ∀ (l : List TypeSchema) (i : Nat) (a b : List TypeSchema),
      (List.enumFrom i l).foldl
        (fun acc p =>
          if k > Int.ofNat p.1 then (acc.1 ++ [unopt p.2], acc.2)
          else (acc.1, acc.2 ++ [p.2]))
        (a, b) =
      (a ++ (l.take (k.toNat - i)).map unopt, b ++ l.drop (k.toNat - i)) := by
    intro l
    induction l with
    | nil => intro i a b; simp
    | cons p rest ih =>
      intro i a b
      rw [List.enumFrom_cons]
      simp only [List.foldl_cons]
      by_cases hk : i < k.toNat
      · have hcond : k > Int.ofNat i := by show k > (i : Int); omega
        rw [if_pos hcond]
        rw [ih (i + 1)]
        have hm : k.toNat - i = (k.toNat - (i + 1)) + 1 := by omega
        rw [hm]
        simp [List.append_assoc]
      · have hcond : ¬(k > Int.ofNat i) := by show ¬(k > (i : Int)); omega
        rw [if_neg hcond]
        rw [ih (i + 1)]
        have hm0 : k.toNat - i = 0 := by omega
        have hm1 : k.toNat - (i + 1) = 0 := by omega
        rw [hm0, hm1]
        simp
  unfold partitionLeading
  rw [show ps.enum = List.enumFrom 0 ps from rfl, key ps 0 [] []]
  simp

theorem jsFindIndex_toNat_takeWhile (ps : List TypeSchema)
    (hmand : ps.any (fun x => !truthyB x.fs.optional) = true) :
    (jsFindIndex ps (fun x => !truthyB x.fs.optional)).toNat =
      (ps.takeWhile (fun p => truthyB p.fs.optional)).length ∧
    0 ≤ jsFindIndex ps (fun x => !truthyB x.fs.optional) := by
  induction ps with
  | nil => simp at hmand
  | cons p rest ih =>
    by_cases h : truthyB p.fs.optional
    · have hrest : rest.any (fun x => !truthyB x.fs.optional) = true := by
        simp only [List.any_cons, h] at hmand
        simpa using hmand
      obtain ⟨ih1, ih2⟩ := ih hrest
      have hfind : jsFindIndex (p :: rest) (fun x => !truthyB x.fs.optional) =
          jsFindIndex rest (fun x => !truthyB x.fs.optional) + 1 := by
        unfold jsFindIndex
        rw [List.findIdx?_cons]
        rw [if_neg (by simp [h]), Nat.zero_add, List.findIdx?_succ]
        cases hf : rest.findIdx? (fun x => !truthyB x.fs.optional) with
        | none =>
          exfalso
          have := List.findIdx?_eq_none_iff.1 hf
          simp only [List.any_eq_true] at hrest
          obtain ⟨x, hx, hxp⟩ := hrest
          have := this x hx
          simp [hxp] at this
        | some j => simp
      constructor
      · rw [hfind]
        rw [List.takeWhile_cons, if_pos h]
        simp only [List.length_cons]
        omega
      · omega
    · have hfind : jsFindIndex (p :: rest) (fun x => !truthyB x.fs.optional) = 0 := by
        unfold jsFindIndex
        rw [List.findIdx?_cons]
        simp [h]
      rw [hfind]
      rw [List.takeWhile_cons, if_neg h]
      simp

/-- The return-type phase yields `void` and only the defaulted marker when a
function has neither returns nor async marker nor a parameter the default
marker designates. -/
theorem convertFunctionReturn_void_no_cb (c : Ctx) (fuel : Nat) (f : TypeSchema)
    (st : ConvState)
    (hret : f.fs.returns = none) (hasync : f.fs.async = none)
    (hnone : ∀ p ∈ f.fs.parameters.getD [], (p.fs.typ == some "function" &&
      asyncNameMatch (some (.s "callback")) p.fs.name) = false) :
    (convertFunctionReturn c (fuel + 1) f).run st =
      .ok (("void", f.withFs { f.fs with async := some (.s "callback") }), st) := by
  unfold convertFunctionReturn
  simp only [hret, hasync]
  have hbeq : ((none : Option AsyncV) == none) = true := rfl
  rw [hbeq]
  cases hps : f.fs.parameters with
  | none =>
    simp only [withFs_def, fs_mk, hps, if_true]
    rfl
  | some ps =>
    rw [hps] at hnone
    simp only [withFs_def, fs_mk, hps, if_true]
    rw [splitFirst_eq_none _ ps (by simpa using hnone)]
    rfl

theorem convertParamsGo_length (c : Ctx) :
    ∀ (fuel : Nat) (inc : Bool) (nm : Option String) (ps : List TypeSchema) (st : ConvState)
      (r : (List String × List TypeSchema) × ConvState),
    (convertParamsGo c fuel inc nm ps).run st = .ok r →
    r.1.1.length = ps.length ∧ r.1.2.length = ps.length := by
  intro fuel
  induction fuel with
  | zero =>
    intro inc nm ps st r h
    replace h : (Except.error ConvErr.outOfFuel : Except ConvErr _) = .ok r := h
    cases h
  | succ n ih =>
    intro inc nm ps st r h
    cases ps with
    | nil =>
      replace h : (Except.ok ((([], []) : List String × List TypeSchema), st) :
        Except ConvErr _) = .ok r := h
      cases h
      exact ⟨rfl, rfl⟩
    | cons p rest =>
      unfold convertParamsGo at h
      obtain ⟨a, st1, h1, h2⟩ := (bind_ok_iff _ _ _ _).1 h
      obtain ⟨ty, p2⟩ := a
      obtain ⟨b, st2, h3, h4⟩ := (bind_ok_iff _ _ _ _).1 h2
      obtain ⟨ss, ps2⟩ := b
      have h5 := pure_ok _ _ _ h4
      subst h5
      obtain ⟨hb1, hb2⟩ := ih inc nm rest st1 ((ss, ps2), st2) h3
      have hb1' : ss.length = rest.length := hb1
      have hb2' : ps2.length = rest.length := hb2
      constructor
      · simp [hb1']
      · simp [hb2']

theorem convertSingleFunction_length (c : Ctx) (fuel : Nat) (name rt : String)
    (arrow classy : Bool) (func : TypeSchema) (st : ConvState)
    (r : (String × List TypeSchema) × ConvState)
    (h : (convertSingleFunction c fuel name rt arrow classy func).run st = .ok r) :
    r.1.2.length = (func.fs.parameters.getD []).length := by
  match fuel with
  | 0 =>
    replace h : (Except.error ConvErr.outOfFuel : Except ConvErr _) = .ok r := h
    cases h
  | n + 1 =>
    unfold convertSingleFunction at h
    obtain ⟨a, st1, h1, h2⟩ := (bind_ok_iff _ _ _ _).1 h
    obtain ⟨params, ps2⟩ := a
    obtain ⟨-, hl2⟩ := convertParamsGo_length c n true func.fs.name _ st ((params, ps2), st1) h1
    dsimp only at h2
    by_cases harr : arrow = true
    · rw [if_pos harr] at h2
      have h5 := pure_ok _ _ _ h2
      subst h5
      exact hl2
    · rw [if_neg harr] at h2
      by_cases hres : RESERVED.contains name = true
      · rw [if_pos hres] at h2
        have h5 := push_pure_ok _ _ _ _ h2
        subst h5
        exact hl2
      · rw [if_neg hres] at h2
        have h5 := pure_ok _ _ _ h2
        subst h5
        exact hl2

/-- The overload loop emits exactly one signature per remaining leading
optional, joined behind newlines. -/
theorem overloadGo_sigs (c : Ctx) :
    ∀ (fuel : Nat) (name rt : String) (arrow classy : Bool) (f : TypeSchema)
      (lead rest : List TypeSchema) (i : Nat) (st : ConvState)
      (r : (String × List TypeSchema) × ConvState),
    i ≤ lead.length →
    (overloadGo c fuel name rt arrow classy f lead rest i).run st = .ok r →
    ∃ sigs : List String, sigs.length = lead.length - i ∧
      r.1.1 = sigs.foldr (fun s acc => "\n" ++ s ++ (if classy then ";\n" else "") ++ acc) "" := by
  intro fuel
  induction fuel with
  | zero =>
    intro name rt arrow classy f lead rest i st r hi h
    replace h : (Except.error ConvErr.outOfFuel : Except ConvErr _) = .ok r := h
    cases h
  | succ n ih =>
    intro name rt arrow classy f lead rest i st r hi h
    unfold overloadGo at h
    by_cases hik : i < lead.length
    · rw [if_pos hik] at h
      obtain ⟨a, st1, h1, h2⟩ := (bind_ok_iff _ _ _ _).1 h
      obtain ⟨sig, params'⟩ := a
      dsimp only at h2
      obtain ⟨b, st2, h3, h4⟩ := (bind_ok_iff _ _ _ _).1 h2
      obtain ⟨out2, rest2⟩ := b
      dsimp only at h4
      have h5 := pure_ok _ _ _ h4
      subst h5
      have hplen : params'.length = (lead.drop i ++ rest).length := by
        have := convertSingleFunction_length c n name rt arrow classy
          (f.withFs { f.fs with parameters := some (lead.drop i ++ rest) }) st
          ((sig, params'), st1) h1
        simpa using this
      have hlead' : (lead.take i ++ params'.take (lead.length - i)).length = lead.length := by
        rw [List.length_append, List.length_take, List.length_take]
        rw [List.length_append, List.length_drop] at hplen
        omega
      obtain ⟨sigs, hsl, hout⟩ := ih name rt arrow classy f
        (lead.take i ++ params'.take (lead.length - i)) (params'.drop (lead.length - i))
        (i + 1) st1 ((out2, rest2), st2) (by omega) h3
      refine ⟨sig :: sigs, ?_, ?_⟩
      · rw [List.length_cons, hsl, hlead']
        omega
      · have hout' : out2 = List.foldr
            (fun s acc => "\n" ++ s ++ (if classy then ";\n" else "") ++ acc) "" sigs := hout
        simp only [List.foldr_cons, ← hout']
    · rw [if_neg hik] at h
      have h5 := pure_ok _ _ _ h
      subst h5
      refine ⟨[], ?_, rfl⟩
      simp only [List.length_nil]
      omega

/-! ## Claim theorems -/

/-- C8: a type node matching none of the compilation branches (no override,
no choices, no enum, no recognized type, no `$ref`, no value) makes
`convertType` raise the cannot-handle error carrying the offending node (the
source serializes that node into the message); `convertType` never returns an
empty string; and a node whose matched branch produced non-empty output
raises no error. -/
theorem convertType_unhandled_error_spec (c : Ctx) (fuel : Nat) (t : TypeSchema) (root : Bool)
    (st : ConvState) :
    (noCompileBranch t → (convertType c (fuel + 2) t root).run st = .error (.cannotHandle t)) ∧
    (∀ r, (convertType c fuel t root).run st = .ok r → r.1.1 ≠ "") ∧
    (∀ s t' st', truthyS t.fs.converterTypeOverride = false →
      (truthyS t.fs.converterAdditionalType && truthyS t.fs.id) = false →
      (convertTypeCore c (fuel + 1) t root).run st = .ok ((s, t'), st') → s ≠ "" →
      (convertType c (fuel + 2) t root).run st = .ok ((s, t'), st')) := by
  refine ⟨?_, ?_, ?_⟩
  · rintro ⟨h1, h2, h3, h4, h5, h6, h7⟩
    have hcore : (convertTypeCore c (fuel + 1) t root).run st = .ok (("", t), st) := by
      unfold convertTypeCore
      rw [h3, h4]
      simp only [h5, h6, h7]
      rfl
    unfold convertType
    simp only [h1, h2]
    rw [if_neg (by simp), if_neg (by simp), StateT.run_bind, hcore]
    rfl
  · intro r h
    exact convertType_ok_ne_empty c fuel t root st r h
  · intro s t' st' h1 h2 hcore hs
    unfold convertType
    simp only [h1, h2]
    rw [if_neg (by simp), if_neg (by simp), StateT.run_bind, hcore]
    show StateT.run (if (s == "") = true then
        (throw (ConvErr.cannotHandle t') : ConvM (String × TypeSchema))
      else pure (s, t')) st' = .ok ((s, t'), st')
    rw [if_neg (by simp [hs])]
    rfl

/-- C8 witness: the all-absent node matches no branch and raises the
cannot-handle error carrying itself; a handled node returns non-empty. -/
theorem convertType_unhandled_error_spec_witness :
    noCompileBranch emptyTS ∧
    (convertType cW 3 emptyTS false).run {} = .error (.cannotHandle emptyTS) ∧
    ("string" : String) ≠ "" :=
  ⟨⟨rfl, rfl, rfl, rfl, rfl, rfl, rfl⟩,
   (convertType_unhandled_error_spec cW 1 emptyTS false {}).1 ⟨rfl, rfl, rfl, rfl, rfl, rfl, rfl⟩,
   (convertType_unhandled_error_spec cW 5 (.mk { typ := some "string" }) false {}).2.1
     (("string", .mk { typ := some "string" }), {}) rfl⟩

/-- C5 counterexample: for the reference `foo.Bar` compiled from namespace
`baz` with `foo` unknown, `convertRef` returns the full dotted reference and
registers `type foo.Bar = any;` — not the bare identifier `Bar` and not
`type Bar = any;` as the claim states. -/
theorem convertRef_fallback_counterexample :
    (convertRef c5ctx "foo.Bar").run {} =
      .ok ("foo.Bar",
        { additionalTypes := ["type foo.Bar = any;"],
          warnings := ["Warning: Cannot find reference \"foo.Bar\", assuming the browser knows better."] }) ∧
    ("foo.Bar" : String) ≠ "Bar" ∧
    ("type foo.Bar = any;" : String) ≠ "type Bar = any;" :=
  ⟨rfl, by decide, by decide⟩

/-- C5 amended: when the alias-resolved namespace of a dotted reference is
neither the current namespace nor a key of the namespace table and no type of
the current namespace's type list has the **full reference string** as id,
`convertRef` logs one warning, registers `type <full reference> = any;` and
returns the full reference (qualifier included); when the namespace segment
is the current namespace and it is in the table, the bare identifier is
returned with nothing registered. -/
theorem convertRef_fallback_spec :
    (∀ (c : Ctx) (ref0 nsStr idStr : String) (st : ConvState),
      jsSplitChar ref0 '.' = [nsStr, idStr] →
      jsGet c.aliases nsStr = none →
      (nsStr == c.ns) = false →
      nsStr ∉ jsKeys c.namespaces →
      ((((jsGet c.namespaces c.ns).bind (·.types)).getD []).any
        (fun x => x.fs.id == some ref0)) = false →
      (convertRef c ref0).run st = .ok (ref0, { st with
        additionalTypes := st.additionalTypes ++ ["type " ++ ref0 ++ " = any;"],
        warnings := st.warnings ++
          ["Warning: Cannot find reference \"" ++ ref0 ++ "\", assuming the browser knows better."] })) ∧
    (∀ (c : Ctx) (ref0 idStr : String) (st : ConvState),
      jsSplitChar ref0 '.' = [c.ns, idStr] →
      jsGet c.aliases c.ns = none →
      c.ns ∈ jsKeys c.namespaces →
      (convertRef c ref0).run st = .ok (idStr, st)) := by
  constructor
  · intro c ref0 nsStr idStr st hsplit halias hne hunknown hnotype
    unfold convertRef
    simp [hsplit, halias, hne, hunknown, hnotype, tmpl, warn, pushAdditional]
    rfl
  · intro c ref0 idStr st hsplit halias hknown
    unfold convertRef
    simp [hsplit, halias, hknown, tmpl]
    rfl

/-- C10: with no explicit return type and the async marker absent,
`convertFunction`'s return-type phase behaves exactly as if the marker were
the string `"callback"`; in particular, when no function-typed parameter
named `callback` exists, the return type stays `void` (and the node keeps its
parameters, having gained the defaulted marker). -/
theorem convertFunctionReturn_default_marker_spec (c : Ctx) (fuel : Nat) (f : TypeSchema)
    (hret : f.fs.returns = none) (hasync : f.fs.async = none) :
    convertFunctionReturn c fuel f =
      convertFunctionReturn c fuel (f.withFs { f.fs with async := some (.s "callback") }) ∧
    (∀ st : ConvState,
      (∀ p ∈ f.fs.parameters.getD [], (p.fs.typ == some "function" &&
        asyncNameMatch (some (.s "callback")) p.fs.name) = false) →
      (convertFunctionReturn c (fuel + 1) f).run st =
        .ok (("void", f.withFs { f.fs with async := some (.s "callback") }), st)) := by
  constructor
  · match fuel with
    | 0 => rfl
    | fuel + 1 =>
      unfold convertFunctionReturn
      simp only [withFs_def, fs_mk, hret, hasync]
      rfl
  · intro st hnone
    unfold convertFunctionReturn
    simp only [hret, hasync]
    have hbeq : ((none : Option AsyncV) == none) = true := rfl
    rw [hbeq]
    cases hps : f.fs.parameters with
    | none =>
      simp only [withFs_def, fs_mk, hps, if_true]
      rfl
    | some ps =>
      rw [hps] at hnone
      simp only [withFs_def, fs_mk, hps, if_true]
      rw [splitFirst_eq_none _ ps (by simpa using hnone)]
      rfl

/-- C10 witness: a function with a number parameter and no marker keeps
`void`, identically to the explicit `"callback"` marker. -/
theorem convertFunctionReturn_default_marker_spec_witness :
    c10f.fs.returns = none ∧
    (convertFunctionReturn cW 5 c10f).run {} =
      .ok (("void", c10f.withFs { c10f.fs with async := some (.s "callback") }), {}) :=
  ⟨rfl,
   (convertFunctionReturn_default_marker_spec cW 4 c10f rfl rfl).2
     {} (by intro p hp; fin_cases hp; rfl)⟩

/-- One fragment record folds into the table as a keyed update. -/
theorem mergeFragmentNS_eq_jsSet (aliases : List (String × String))
    (tbl : List (String × NamespaceSchema)) (r : NamespaceSchema) :
    mergeFragmentNS aliases tbl r =
      jsSet tbl (resolveNsName aliases r) (nsStep (resolveNsName aliases r)
        (jsGet tbl (resolveNsName aliases r)) r) := by
  rfl

theorem jsGet_map_set {α : Type} (l : List (String × α)) (k : String) (v : α) (k2 : String) :
    jsGet (l.map (fun p => if p.1 == k then (p.1, v) else p)) k2 =
      if k2 = k then (jsGet l k2).map (fun _ => v) else jsGet l k2 := by
  induction l with
  | nil => by_cases h : k2 = k <;> simp [jsGet, h]
  | cons p ps ih =>
    by_cases hpk : p.1 = k
    · by_cases hk2 : k2 = k
      · subst hk2
        simp [jsGet, List.find?, hpk]
      · have hpk2 : ¬ (p.1 = k2) := fun h => hk2 (h ▸ hpk)
        simp only [jsGet, List.map_cons, List.find?] at ih ⊢
        rw [if_pos (by simpa using hpk)]
        simp only [show (p.1 == k2) = false by simpa using hpk2]
        simpa [hk2] using ih
    · by_cases hpk2 : p.1 = k2
      · have hk2 : ¬ (k2 = k) := fun h => hpk (hpk2.symm ▸ h)
        simp only [jsGet, List.map_cons, List.find?]
        rw [if_neg (by simpa using hpk)]
        simp [show (p.1 == k2) = true by simpa using hpk2, hk2]
      · simp only [jsGet, List.map_cons, List.find?] at ih ⊢
        rw [if_neg (by simpa using hpk)]
        simp only [show (p.1 == k2) = false by simpa using hpk2]
        simpa using ih

theorem jsGet_jsSet {α : Type} (l : List (String × α)) (k : String) (v : α) (k2 : String) :
    jsGet (jsSet l k v) k2 = if k = k2 then some v else jsGet l k2 := by
  rw [jsSet]
  by_cases hf : (List.find? (fun p => p.1 == k) l).isSome
  · rw [if_pos hf, jsGet_map_set]
    by_cases hk : k2 = k
    · subst hk
      rw [if_pos rfl, if_pos rfl]
      obtain ⟨x, hx⟩ := Option.isSome_iff_exists.1 hf
      rw [jsGet, hx]
      rfl
    · rw [if_neg hk, if_neg (fun h => hk h.symm)]
  · rw [if_neg hf]
    rw [jsGet, List.find?_append]
    by_cases hk : k = k2
    · subst hk
      have : List.find? (fun p => p.1 == k) l = none := by
        cases h : List.find? (fun p => p.1 == k) l with
        | none => rfl
        | some x => exact absurd (by rw [h]; rfl) hf
      rw [if_pos rfl, this]
      simp [List.find?]
    · rw [if_neg hk]
      cases h : List.find? (fun p => p.1 == k2) l with
      | none =>
        rw [jsGet, h]
        simp [List.find?, show (k == k2) = false by simpa using hk]
      | some x =>
        rw [jsGet, h]
        rfl

theorem foldl_mergeFragmentNS_get (aliases : List (String × String)) (k : String) :
    ∀ (rs : List NamespaceSchema) (tbl : List (String × NamespaceSchema)),
      jsGet (rs.foldl (mergeFragmentNS aliases) tbl) k =
        (rs.filter (fun r => resolveNsName aliases r == k)).foldl
          (fun prev r => some (nsStep k prev r)) (jsGet tbl k) := by
  intro rs
  induction rs with
  | nil => intro tbl; rfl
  | cons r rs ih =>
    intro tbl
    rw [List.foldl_cons, ih, List.filter_cons]
    by_cases hr : resolveNsName aliases r = k
    · rw [if_pos (by simpa using hr), List.foldl_cons]
      rw [mergeFragmentNS_eq_jsSet]
      congr 1
      rw [jsGet_jsSet, if_pos hr, hr]
    · rw [if_neg (by simpa using hr)]
      congr 1
      rw [mergeFragmentNS_eq_jsSet, jsGet_jsSet, if_neg hr]

theorem specNSRecord_snoc (k : String) (occs : List NamespaceSchema) (o : NamespaceSchema) :
    specNSRecord k (occs ++ [o]) = some (nsStep k (specNSRecord k occs) o) := by
  cases occs with
  | nil =>
    cases hty : o.types <;> cases hpr : o.properties <;> cases hfn : o.functions <;>
      cases hev : o.events <;> cases hpe : o.permissions <;> cases hac : o.allowedContexts <;>
      by_cases him : truthyS o.imp <;>
      (rw [List.nil_append, specNSRecord, specNSRecord, nsStep]
       simp only [hty, hpr, hfn, hev, hpe, hac, him, List.flatMap_cons, List.flatMap_nil,
         List.append_nil, List.nil_append, List.foldl_cons, List.foldl_nil,
         Option.getD_some, Option.getD_none, Bool.false_eq_true, ite_true, ite_false])
  | cons first rest =>
    cases hty : o.types <;> cases hpr : o.properties <;> cases hfn : o.functions <;>
      cases hev : o.events <;> cases hpe : o.permissions <;> cases hac : o.allowedContexts <;>
      by_cases him : truthyS o.imp <;>
      (rw [List.cons_append, specNSRecord, specNSRecord, nsStep]
       simp only [hty, hpr, hfn, hev, hpe, hac, him, List.flatMap_append, List.flatMap_cons,
         List.flatMap_nil, List.append_nil, List.nil_append, List.foldl_append,
         List.foldl_cons, List.foldl_nil, Option.getD_some, Option.getD_none,
         List.append_assoc, Bool.false_eq_true, ite_true, ite_false])

theorem specNSRecord_fold (k : String) (occs : List NamespaceSchema) :
    occs.foldl (fun prev r => some (nsStep k prev r)) none = specNSRecord k occs := by
  induction occs using List.reverseRecOn with
  | nil => rfl
  | append_singleton occs o ih =>
    rw [List.foldl_append, List.foldl_cons, List.foldl_nil, ih, specNSRecord_snoc]

/-- C4 (amended): per alias-resolved key, the constructor table holds the
record with arrays concatenated over the occurrences in fragment order,
properties object-assigned per supplying occurrence (last-wins per property
key), description from the FIRST occurrence, and $import from the latest
occurrence with a truthy value. -/
theorem buildNamespaces_merge_spec (aliases : List (String × String))
    (schemaData : List (String × List NamespaceSchema)) (k : String) :
    jsGet (buildNamespaces aliases schemaData) k =
      specNSRecord k (occsOf aliases schemaData k) := by
  rw [buildNamespaces]
  have hflat : ∀ (sd : List (String × List NamespaceSchema))
      (tbl : List (String × NamespaceSchema)),
      sd.foldl (fun tbl frag => frag.2.foldl (mergeFragmentNS aliases) tbl) tbl =
        (sd.flatMap (·.2)).foldl (mergeFragmentNS aliases) tbl := by
    intro sd
    induction sd with
    | nil => intro tbl; rfl
    | cons frag rest ih =>
      intro tbl
      rw [List.foldl_cons, ih, List.flatMap_cons, List.foldl_append]
  rw [hflat, foldl_mergeFragmentNS_get, occsOf]
  rw [show jsGet ([] : List (String × NamespaceSchema)) k = none from rfl]
  exact specNSRecord_fold k _

/-- C4 counterexample: the description is taken from the first occurrence at
record initialization and never reassigned, so two fragments with
descriptions "one" then "two" leave "one" in the table, not the claimed
last-wins "two". -/
theorem buildNamespaces_description_counterexample :
    (jsGet (buildNamespaces [] [("a.json", [c4n1]), ("b.json", [c4n2])]) "n").map
      (fun r => r.description) = some (some "one") ∧
    (some (some "one") : Option (Option String)) ≠ some (some "two") := ⟨rfl, by decide⟩

/-- Membership is preserved by the keep-first key de-duplication. -/
theorem mem_dedupO {a : Option String} : ∀ {l : List (Option String)}, a ∈ dedupO l ↔ a ∈ l := by
  intro l
  induction l using dedupO.induct with
  | case1 => simp [dedupO]
  | case2 k ks ih =>
    rw [dedupO]
    simp only [List.mem_cons, ih, List.mem_filter]
    constructor
    · rintro (rfl | ⟨h, -⟩)
      · exact .inl rfl
      · exact .inr h
    · rintro (rfl | h)
      · exact .inl rfl
      · by_cases hak : a = k
        · exact .inl hak
        · exact .inr ⟨h, by simpa using hak⟩

/-- Appending an already-seen key does not change the de-duplicated keys. -/
theorem dedupO_append_mem {k : Option String} :
    ∀ {l : List (Option String)}, k ∈ l → dedupO (l ++ [k]) = dedupO l := by
  intro l
  induction l using dedupO.induct with
  | case1 => simp
  | case2 x xs ih =>
    intro hk
    rw [List.cons_append, dedupO, dedupO, List.filter_append]
    by_cases hkx : k = x
    · subst hkx
      simp
    · have hk' : k ∈ xs := by
        rcases List.mem_cons.1 hk with h | h
        · exact absurd h hkx
        · exact h
      have : List.filter (fun y => decide (y ≠ x)) [k] = [k] := by
        simp [hkx]
      rw [this, ih (List.mem_filter.2 ⟨hk', by simpa using hkx⟩)]

/-- Appending a fresh key appends it to the de-duplicated keys. -/
theorem dedupO_append_not_mem {k : Option String} :
    ∀ {l : List (Option String)}, k ∉ l → dedupO (l ++ [k]) = dedupO l ++ [k] := by
  intro l
  induction l using dedupO.induct with
  | case1 => simp [dedupO]
  | case2 x xs ih =>
    intro hk
    rw [List.cons_append, dedupO, dedupO, List.filter_append]
    have hkx : k ≠ x := fun h => hk (h ▸ List.mem_cons_self _ _)
    have : List.filter (fun y => decide (y ≠ x)) [k] = [k] := by simp [hkx]
    rw [this, ih (fun h => hk (List.mem_cons_of_mem _ (List.mem_filter.1 h).1)), List.cons_append]

/-- Group membership of an appended element. -/
theorem keyGroup_append (k : Option String) (l : List TypeSchema) (t : TypeSchema) :
    keyGroup k (l ++ [t]) =
      keyGroup k l ++ (if collapseKey t == k then [t] else []) := by
  rw [keyGroup, keyGroup, List.filter_append]
  by_cases h : collapseKey t == k
  · rw [if_pos h]
    simp [h]
  · rw [if_neg h]
    simp only [Bool.not_eq_true] at h
    simp [h]

/-- Lookup in a key-indexed map association. -/
theorem ogGet_map_key (l : List (Option String)) (f : Option String → TypeSchema)
    (k : Option String) :
    ogGet (l.map (fun k2 => (k2, f k2))) k = if k ∈ l then some (f k) else none := by
  induction l with
  | nil => simp [ogGet]
  | cons x xs ih =>
    rw [List.map_cons, ogGet, List.find?]
    by_cases hx : x == k
    · have hx' : x = k := by simpa using hx
      subst hx'
      simp [hx]
    · have hx' : ¬ (x = k) := by simpa using hx
      simp only [hx]
      rw [ogGet] at ih
      rw [ih]
      by_cases hm : k ∈ xs
      · rw [if_pos hm, if_pos (List.mem_cons_of_mem _ hm)]
      · rw [if_neg hm, if_neg (by
          intro h
          rcases List.mem_cons.1 h with h | h
          · exact hx' h.symm
          · exact hm h)]

/-- Update in a key-indexed map association. -/
theorem ogSet_map_key (l : List (Option String)) (f : Option String → TypeSchema)
    (k : Option String) (v : TypeSchema) :
    ogSet (l.map (fun k2 => (k2, f k2))) k v =
      l.map (fun k2 => if k2 == k then (k2, v) else (k2, f k2)) := by
  rw [ogSet, List.map_map]
  rfl

/-- A group is empty exactly when its key never occurs. -/
theorem keyGroup_eq_nil_iff (k : Option String) (l : List TypeSchema) :
    keyGroup k l = [] ↔ k ∉ l.map collapseKey := by
  rw [keyGroup, List.filter_eq_nil_iff]
  constructor
  · intro h hk
    obtain ⟨t, ht, hkt⟩ := List.mem_map.1 hk
    exact absurd (by simpa using hkt) (by simpa using h t ht)
  · intro h t ht
    simp only [beq_iff_eq]
    intro hkt
    exact h (List.mem_map.2 ⟨t, ht, hkt⟩)

/-- Appending an element of another group leaves a group collapse unchanged. -/
theorem specGroupCollapse_append_ne (fuel : Nat) (k : Option String)
    (l : List TypeSchema) (t : TypeSchema) (h : ¬ (collapseKey t == k)) :
    specGroupCollapse fuel k (l ++ [t]) = specGroupCollapse fuel k l := by
  rw [specGroupCollapse, specGroupCollapse, keyGroup_append, if_neg h, List.append_nil]

/-- Appending a member of a nonempty group merges it onto the group collapse. -/
theorem specGroupCollapse_append_mem (fuel : Nat) (k : Option String)
    (l : List TypeSchema) (t : TypeSchema) (hne : keyGroup k l ≠ [])
    (h : collapseKey t == k) :
    specGroupCollapse fuel k (l ++ [t]) =
      mergeTS collapseMode fuel (specGroupCollapse fuel k l) (stripExt t) := by
  rw [specGroupCollapse, specGroupCollapse, keyGroup_append, if_pos h]
  obtain ⟨g0, gs, hg⟩ : ∃ g0 gs, keyGroup k l = g0 :: gs := by
    cases hgl : keyGroup k l with
    | nil => exact absurd hgl hne
    | cons a as => exact ⟨a, as, rfl⟩
  rw [hg]
  simp [List.foldl_append]

/-- The first member of a fresh group is the group collapse, `$extend`
stripped. -/
theorem specGroupCollapse_append_new (fuel : Nat) (k : Option String)
    (l : List TypeSchema) (t : TypeSchema) (hnil : keyGroup k l = [])
    (h : collapseKey t == k) :
    specGroupCollapse fuel k (l ++ [t]) = stripExt t := by
  rw [specGroupCollapse, keyGroup_append, if_pos h, hnil]
  simp

/-- The loop of `collapseExtendedTypes` keeps the association at the per-key
group collapse of the processed prefix. -/
theorem collapseGo_assoc (fuel : Nat) :
    ∀ (ts done : List TypeSchema) (slots : List CollapseSlot),
      (collapseGo fuel ts (specAssoc fuel done) slots).1 =
        specAssoc fuel (done ++ ts) := by
  intro ts
  induction ts with
  | nil =>
    intro done slots
    rw [collapseGo, List.append_nil]
  | cons t ts ih =>
    intro done slots
    rw [collapseGo]
    have hget : ogGet (specAssoc fuel done) (collapseKey t) =
        if collapseKey t ∈ done.map collapseKey
        then some (specGroupCollapse fuel (collapseKey t) done) else none := by
      rw [specAssoc, ogGet_map_key]
      exact if_congr mem_dedupO rfl rfl
    by_cases hmem : collapseKey t ∈ done.map collapseKey
    · rw [hget, if_pos hmem]
      dsimp only
      have hassoc : ogSet (specAssoc fuel done) (collapseKey t)
          (mergeTS collapseMode fuel (specGroupCollapse fuel (collapseKey t) done)
            (t.withFs { t.fs with ext := none })) =
          specAssoc fuel (done ++ [t]) := by
        rw [specAssoc, specAssoc, ogSet_map_key, List.map_append, List.map_cons, List.map_nil,
          dedupO_append_mem hmem]
        refine List.map_congr_left ?_
        intro k2 hk2
        by_cases hk2k : k2 == collapseKey t
        · rw [if_pos hk2k]
          have hk2k' : k2 = collapseKey t := by simpa using hk2k
          rw [hk2k', specGroupCollapse_append_mem fuel (collapseKey t) done t
            ((not_iff_not.2 (keyGroup_eq_nil_iff (collapseKey t) done)).2 (not_not.2 hmem))
            (by simp)]
          rfl
        · rw [if_neg hk2k]
          have hk2k' : ¬ (collapseKey t == k2) := by
            simp only [beq_iff_eq] at hk2k ⊢
            exact fun h => hk2k h.symm
          rw [specGroupCollapse_append_ne fuel k2 done t hk2k']
      rw [hassoc, ih (done ++ [t]), List.append_assoc, List.singleton_append]
    · rw [hget, if_neg hmem]
      dsimp only
      have hassoc : specAssoc fuel done ++
          [(collapseKey t, t.withFs { t.fs with ext := none })] =
          specAssoc fuel (done ++ [t]) := by
        rw [specAssoc, specAssoc, List.map_append, List.map_cons, List.map_nil,
          dedupO_append_not_mem hmem, List.map_append, List.map_cons, List.map_nil]
        refine congrArg₂ (· ++ ·) ?_ ?_
        · refine List.map_congr_left ?_
          intro k2 hk2
          have hk2' : k2 ∈ done.map collapseKey := mem_dedupO.1 hk2
          have hk2k : ¬ (collapseKey t == k2) := by
            simp only [beq_iff_eq]
            exact fun h => hmem (h ▸ hk2')
          rw [specGroupCollapse_append_ne fuel k2 done t hk2k]
        · rw [specGroupCollapse_append_new fuel (collapseKey t) done t
            ((keyGroup_eq_nil_iff _ done).2 hmem) (by simp)]
          rfl
      rw [hassoc, ih (done ++ [t]), List.append_assoc, List.singleton_append]

/-- `collapseExtendedTypes` output, characterized per `$extend`-or-id group in
first-seen order. -/
theorem collapseExtendedTypes_eq_specCollapse (fuel : Nat) (types : List TypeSchema) :
    (collapseExtendedTypes fuel types).1 = specCollapse fuel types := by
  have h := collapseGo_assoc fuel types [] []
  have h0 : specAssoc fuel [] = [] := by simp [specAssoc, dedupO]
  rw [h0] at h
  rw [collapseExtendedTypes]
  dsimp only
  rw [h, List.nil_append, specCollapse, specAssoc, List.map_map]
  rfl

/-- The deep merge never introduces an `$extend` key. -/
theorem mergeTS_ext_none (mode : MergeMode) (fuel : Nat) (d s : TypeSchema)
    (hd : d.fs.ext = none) (hs : s.fs.ext = none) :
    (mergeTS mode fuel d s).fs.ext = none := by
  cases fuel with
  | zero => exact hd
  | succ n =>
    rw [mergeTS]
    show mSc mode false d.fs.ext s.fs.ext = none
    rw [hd, hs]
    rfl

/-- A collapsed group never carries an `$extend` key. -/
theorem specGroupCollapse_ext_none (fuel : Nat) (k : Option String) (types : List TypeSchema) :
    (specGroupCollapse fuel k types).fs.ext = none := by
  have hall : ∀ u ∈ (keyGroup k types).map stripExt, u.fs.ext = none := by
    intro u hu
    obtain ⟨x, -, hx⟩ := List.mem_map.1 hu
    rw [← hx]
    rfl
  rw [specGroupCollapse]
  cases h : (keyGroup k types).map stripExt with
  | nil => rfl
  | cons t ts =>
    rw [h] at hall
    have : ∀ (l : List TypeSchema) (d : TypeSchema), d.fs.ext = none →
        (∀ s ∈ l, s.fs.ext = none) →
        (l.foldl (mergeTS collapseMode fuel) d).fs.ext = none := by
      intro l
      induction l with
      | nil => intro d hd _; exact hd
      | cons s l ihl =>
        intro d hd hl
        rw [List.foldl_cons]
        exact ihl _ (mergeTS_ext_none _ _ _ _ hd (hl s (List.mem_cons_self _ _)))
          (fun x hx => hl x (List.mem_cons_of_mem _ hx))
    exact this ts t (hall t (List.mem_cons_self _ _))
      (fun x hx => hall x (List.mem_cons_of_mem _ hx))

/-- C3 (amended): `collapseExtendedTypes` produces exactly one record per
`$extend`-or-id group, in first-seen order: each record is the in-order merge
of the group's members with `$extend` stripped, arrays concatenating and a
defined incoming non-array field overwriting, and no output record carries
`$extend`. -/
theorem collapseExtendedTypes_groups_spec (fuel : Nat) (types : List TypeSchema) :
    (collapseExtendedTypes fuel types).1 = specCollapse fuel types ∧
    ∀ u ∈ (collapseExtendedTypes fuel types).1, u.fs.ext = none := by
  refine ⟨collapseExtendedTypes_eq_specCollapse fuel types, ?_⟩
  intro u hu
  rw [collapseExtendedTypes_eq_specCollapse fuel types, specCollapse] at hu
  obtain ⟨k, -, hk⟩ := List.mem_map.1 hu
  rw [← hk]
  exact specGroupCollapse_ext_none fuel k types

/-- C3 witness: a single `$extend` node collapses to itself with the key
stripped. -/
theorem collapseExtendedTypes_groups_spec_witness :
    (collapseExtendedTypes 1 [c3t2]).1 = specCollapse 1 [c3t2] ∧
    (stripExt c3t2).fs.ext = none := by
  have h := collapseExtendedTypes_groups_spec 1 [c3t2]
  refine ⟨h.1, ?_⟩
  exact h.2 (stripExt c3t2)
    (by rw [show (collapseExtendedTypes 1 [c3t2]).1 = [stripExt c3t2] from rfl]
        exact List.mem_singleton_self _)

/-- C3 counterexample: the claim's first-defined-wins rule predicts the base's
string `type` survives, but the source's merge lets the incoming extension's
number `type` overwrite it. -/
theorem collapseExtendedTypes_firstwins_counterexample :
    (collapseExtendedTypes 1 [c3t1, c3t2]).1.map (fun u => u.fs.typ) = [some "number"] ∧
    (specCollapseClaim 1 [c3t1, c3t2]).map (fun u => u.fs.typ) = [some "string"] ∧
    (some "number" : Option String) ≠ some "string" := by
  refine ⟨rfl, ?_, by decide⟩
  have h1 : List.map collapseKey [c3t1, c3t2] = [some "A", some "A"] := rfl
  have hd : dedupO (List.map collapseKey [c3t1, c3t2]) = [some "A"] := by
    rw [h1]
    simp [dedupO]
  rw [specCollapseClaim, hd]
  rfl

/-- C9 (amended): a function whose return type was synthesized into the
override escape hatch on a prior visit (returns carrying only
`converterTypeOverride`, async marker deleted, no parameter matching the
marker) passes through the return-type phase unchanged: the override string
comes back as the return type and the node is returned as it was. -/
theorem convertFunctionReturn_passthrough_spec (c : Ctx) (n : Nat) (f : TypeSchema)
    (rt : String) (st : ConvState)
    (hret : f.fs.returns = some (TypeSchema.mk { converterTypeOverride := some rt }))
    (hrt : (rt == "") = false)
    (hnocb : ∀ p ∈ f.fs.parameters.getD [], (p.fs.typ == some "function" &&
      asyncNameMatch f.fs.async p.fs.name) = false) :
    (convertFunctionReturn c (n + 2) f).run st = .ok ((rt, f), st) := by
  obtain ⟨ffs⟩ := f
  simp only [fs_mk] at hret hnocb
  have hconv : (convertType c (n + 1) (TypeSchema.mk { converterTypeOverride := some rt })
      false).run st = .ok ((rt, TypeSchema.mk { converterTypeOverride := some rt }), st) := by
    unfold convertType
    have hty : truthyS (TypeSchema.mk
        { converterTypeOverride := some rt }).fs.converterTypeOverride = true := by
      simp only [fs_mk]
      show truthyS (some rt) = true
      rw [truthyS]
      simpa using hrt
    simp only [fs_mk] at hty ⊢
    rw [if_pos hty]
    rfl
  unfold convertFunctionReturn
  simp only [fs_mk, hret]
  cases hps : ffs.parameters with
  | none =>
    simp only [hps]
    rw [StateT.run_bind, hconv, exc_bind_ok]
    dsimp only
    have hopt : truthyB (TypeSchema.mk { converterTypeOverride := some rt }).fs.optional = false := rfl
    simp only [fs_mk] at hopt
    simp only [fs_mk, hopt, Bool.false_and, Bool.false_eq_true, if_false, withFs_def]
    have hnode : ({ ffs with
        returns := some (TypeSchema.mk { converterTypeOverride := some rt }) } :
          TSF TypeSchema) = ffs := by
      rw [← hret]
    rw [hnode]
    rfl
  | some ps =>
    rw [hps] at hnocb
    simp only [hps]
    rw [splitFirst_eq_none _ ps (by simpa using hnocb)]
    dsimp only
    rw [StateT.run_bind, hconv, exc_bind_ok]
    dsimp only
    have hopt : truthyB (TypeSchema.mk { converterTypeOverride := some rt }).fs.optional = false := rfl
    simp only [fs_mk] at hopt
    simp only [fs_mk, hopt, Bool.false_and, Bool.false_eq_true, if_false, withFs_def]
    have hnode : ({ ffs with
        returns := some (TypeSchema.mk { converterTypeOverride := some rt }) } :
          TSF TypeSchema) = ffs := by
      rw [← hret]
    rw [hnode]
    rfl

/-- C9 witness: a function with a synthesized Promise override returns it
unchanged on the second visit. -/
theorem convertFunctionReturn_passthrough_spec_witness :
    (convertFunctionReturn cW 2 c9f).run ⟨[], []⟩ =
      .ok (("Promise<number>", c9f), ⟨[], []⟩) := by
  exact convertFunctionReturn_passthrough_spec cW 0 c9f "Promise<number>" ⟨[], []⟩ rfl
    (by decide) (by intro p hp; cases hp)

set_option maxRecDepth 100000 in
/-- C9 counterexample: converting the same table twice is not byte-identical —
the first run deletes `$extend` from the stored type objects, so the second
run groups the former extension under the undefined id and emits an extra
`type undefined = number;` declaration. -/
theorem convert_rerun_counterexample :
    ∃ r1 r2,
      (convert [] id id 20 tbl9).run ⟨[], []⟩ = .ok r1 ∧
      (convert [] id id 20 r1.1.2).run ⟨[], []⟩ = .ok r2 ∧
      r1.1.1 = "Not allowed in: Content scripts, Devtools pages\ndeclare namespace browser.ns \x7b\n/* ns types */\ntype A = number;\n\x7d\n\n" ∧
      r2.1.1 = "Not allowed in: Content scripts, Devtools pages\ndeclare namespace browser.ns \x7b\n/* ns types */\ntype A = number;\n\ntype undefined = number;\n\x7d\n\n" ∧
      r1.1.1 ≠ r2.1.1 :=
  ⟨_, _, rfl, rfl, rfl, rfl, by decide⟩

/-- C1: for a function with no returns, no async marker and no default
callback parameter, whose parameter list has at least one leading optional
before some mandatory parameter, `convertFunction` partitions the parameters
as optional-prefix/rest (stated via `takeWhile`/`dropWhile`), emits the base
signature on the rest alone, then one overload per leading optional carrying
the suffix of mandatory-forced leading optionals before the rest — exactly
`1 + n` signatures. -/
theorem convertFunction_overloads_spec (c : Ctx) (n : Nat) (f : TypeSchema)
    (arrow classy : Bool) (st : ConvState)
    (hret : f.fs.returns = none) (hasync : f.fs.async = none)
    (hnocb : ∀ p ∈ f.fs.parameters.getD [], (p.fs.typ == some "function" &&
      asyncNameMatch (some (.s "callback")) p.fs.name) = false)
    (hmand : (f.fs.parameters.getD []).any (fun x => !truthyB x.fs.optional) = true)
    (hlead : 0 < ((f.fs.parameters.getD []).takeWhile (fun p => truthyB p.fs.optional)).length) :
    ((convertFunction c (n + 2) f arrow classy).run st =
      ((do
        let f2 := f.withFs { f.fs with async := some (.s "callback") }
        let ps := f.fs.parameters.getD []
        let (base, rest1) ← convertSingleFunction c (n + 1) (tmpl f.fs.name) "void" arrow classy
          (f2.withFs { f2.fs with parameters := some (specRest ps) })
        let (loopOut, restF) ← overloadGo c (n + 1) (tmpl f.fs.name) "void" arrow classy f2
          (specLeading ps) rest1 0
        pure (base ++ loopOut, f2.withFs { f2.fs with parameters := f2.fs.parameters.map (fun _ => ps.take (ps.length - (specRest ps).length) ++ restF) })
        : ConvM (String × TypeSchema)).run st)) ∧
    (∀ r, (convertFunction c (n + 2) f arrow classy).run st = .ok r →
      ∃ base sigs, sigs.length = (specLeading (f.fs.parameters.getD [])).length ∧
        0 < sigs.length ∧ r.1.1 = joinSignatures classy base sigs) := by
  obtain ⟨hkn, -⟩ := jsFindIndex_toNat_takeWhile (f.fs.parameters.getD []) hmand
  have heq : (convertFunction c (n + 2) f arrow classy).run st =
      ((do
        let f2 := f.withFs { f.fs with async := some (.s "callback") }
        let ps := f.fs.parameters.getD []
        let (base, rest1) ← convertSingleFunction c (n + 1) (tmpl f.fs.name) "void" arrow classy
          (f2.withFs { f2.fs with parameters := some (specRest ps) })
        let (loopOut, restF) ← overloadGo c (n + 1) (tmpl f.fs.name) "void" arrow classy f2
          (specLeading ps) rest1 0
        pure (base ++ loopOut, f2.withFs { f2.fs with parameters := f2.fs.parameters.map (fun _ => ps.take (ps.length - (specRest ps).length) ++ restF) })
        : ConvM (String × TypeSchema)).run st) := by
    unfold convertFunction
    rw [StateT.run_bind]
    rw [convertFunctionReturn_void_no_cb c n f st hret hasync hnocb, exc_bind_ok]
    dsimp only
    simp only [withFs_def, fs_mk]
    rw [partitionLeading_eq, hkn, take_takeWhile_length, drop_takeWhile_length]
    rfl
  refine ⟨heq, ?_⟩
  intro r h
  rw [heq] at h
  obtain ⟨a, st1, h1, h2⟩ := (bind_ok_iff _ _ _ _).1 h
  obtain ⟨base, rest1⟩ := a
  dsimp only at h2
  obtain ⟨b, st2, h3, h4⟩ := (bind_ok_iff _ _ _ _).1 h2
  obtain ⟨loopOut, restF⟩ := b
  dsimp only at h4
  have h5 := pure_ok _ _ _ h4
  subst h5
  obtain ⟨sigs, hsl, hout⟩ := overloadGo_sigs c (n + 1) (tmpl f.fs.name) "void" arrow classy
    (f.withFs { f.fs with async := some (.s "callback") })
    (specLeading (f.fs.parameters.getD [])) rest1 0 st1 ((loopOut, restF), st2)
    (Nat.zero_le _) h3
  refine ⟨base, sigs, ?_, ?_, ?_⟩
  · rw [hsl, Nat.sub_zero]
  · rw [hsl, Nat.sub_zero]
    simpa [specLeading] using hlead
  · have hout' : loopOut = sigs.foldr
        (fun s acc => "\n" ++ s ++ (if classy then ";\n" else "") ++ acc) "" := hout
    rw [joinSignatures, ← hout']

/-- C1 witness: f(a?: string, b: number) yields the base signature without the
optional plus one overload including it. -/
theorem convertFunction_overloads_spec_witness :
    ∃ base sigs, sigs.length = 1 ∧ 0 < sigs.length ∧
      "function f(b: number): void;\nfunction f(a: string, b: number): void;" =
        joinSignatures false base sigs := by
  have h := (convertFunction_overloads_spec cW 8 c1f false false ⟨[], []⟩
    rfl rfl
    (by intro p hp
        rcases hp with _ | ⟨_, hp⟩
        · rfl
        rcases hp with _ | ⟨_, hp⟩
        · rfl
        · cases hp)
    rfl (by decide)).2
  obtain ⟨base, sigs, h1, h2, h3⟩ := h _ rfl
  exact ⟨base, sigs, h1, h2, h3⟩

/-- C2: with no explicit return type and a string async marker naming a
present function-typed parameter, `convertFunction`'s return-type phase
removes that parameter and produces `Promise<void>` for a parameterless
callback, `Promise<T>` for a single callback parameter compiling to `T`, and
`Promise<object>` plus exactly one logged warning for a multi-parameter
callback. -/
theorem convertFunctionReturn_async_promise_spec (c : Ctx) (n : Nat) (f : TypeSchema)
    (m : String) (pre : List TypeSchema) (cb : TypeSchema) (post : List TypeSchema)
    (st : ConvState)
    (hret : f.fs.returns = none)
    (hasync : f.fs.async = some (.s m))
    (hparams : f.fs.parameters = some (pre ++ cb :: post))
    (hpre : ∀ x ∈ pre,
      (x.fs.typ == some "function" && asyncNameMatch (some (.s m)) x.fs.name) = false)
    (hcb : (cb.fs.typ == some "function" && asyncNameMatch (some (.s m)) cb.fs.name) = true) :
    ((cb.fs.parameters = none ∨ cb.fs.parameters = some []) →
      (convertFunctionReturn c (n + 2) f).run st =
        .ok (("Promise<void>", asyncResultF f pre post "Promise<void>"), st)) ∧
    (∀ p T p2 st1, cb.fs.parameters = some [p] →
      (convertType c (n + 1) (setParamId p f.fs.name) false).run st =
        .ok ((T, p2), st1) →
      (convertFunctionReturn c (n + 3) f).run st =
        .ok (("Promise<" ++ T ++ ">", asyncResultF f pre post ("Promise<" ++ T ++ ">")), st1)) ∧
    (∀ strs ps' st1,
      (convertParamsGo c (n + 1) false f.fs.name (cb.fs.parameters.getD [])).run st =
        .ok ((strs, ps'), st1) →
      strs.length > 1 →
      (convertFunctionReturn c (n + 2) f).run st =
        .ok (("Promise<object>", asyncResultF f pre post "Promise<object>"),
          { st1 with warnings := st1.warnings ++
            ["Warning: Promises cannot return more than one value: " ++ tmpl f.fs.name ++ "."] })) := by
  have hsplit : splitFirst (fun (x : TypeSchema) => x.fs.typ == some "function" &&
      asyncNameMatch (some (.s m)) x.fs.name) (pre ++ cb :: post) = some (pre, cb, post) :=
    splitFirst_append_cons _ pre cb post hpre hcb
  refine ⟨?_, ?_, ?_⟩
  · intro hcbp
    unfold convertFunctionReturn
    simp only [hret, hasync, withFs_def, fs_mk]
    rw [if_neg (fun h => nomatch h)]
    simp only [hasync, hparams, withFs_def, fs_mk]
    rw [hsplit]
    have hempty : cb.fs.parameters.getD [] = [] := by
      rcases hcbp with h | h <;> simp [h]
    rw [StateT.run_bind]
    have h0 : (convertParamsGo c (n + 1) false f.fs.name (cb.fs.parameters.getD [])).run st =
        .ok (([], []), st) := by
      rw [hempty]; rfl
    rw [h0]
    rfl
  · intro p T p2 st1 hcbp hconv
    unfold convertFunctionReturn
    simp only [hret, hasync, withFs_def, fs_mk]
    rw [if_neg (fun h => nomatch h)]
    simp only [hasync, hparams, withFs_def, fs_mk]
    rw [hsplit]
    rw [StateT.run_bind]
    have hTne : T ≠ "" :=
      convertType_ok_ne_empty c (n + 1) _ false st ((T, p2), st1) hconv
    have h1 : (convertParamsGo c (n + 2) false f.fs.name (cb.fs.parameters.getD [])).run st =
        .ok (([T], [p2]), st1) := by
      rw [hcbp]
      show (convertParamsGo c (n + 2) false f.fs.name [p]).run st = .ok (([T], [p2]), st1)
      unfold convertParamsGo
      rw [StateT.run_bind]
      rw [hconv]
      have h2 : (convertParamsGo c (n + 1) false f.fs.name []).run st1 = .ok (([], []), st1) := rfl
      rw [exc_bind_ok]
      rw [StateT.run_bind, h2, exc_bind_ok]
      rfl
    rw [h1]
    show StateT.run ((do
      let paramStrs2 ←
        if ([T].length > 1) then do
          warn ("Warning: Promises cannot return more than one value: " ++ tmpl f.fs.name ++ ".")
          pure ["object"]
        else pure [T]
      let promiseReturn := match paramStrs2.head? with
        | some s => if s == "" then "void" else s
        | none => "void"
      let rt := "Promise<" ++ promiseReturn ++ ">"
      pure (rt, asyncResultF f pre post rt)) : ConvM (String × TypeSchema)) st1 = _
    rw [if_neg (by simp)]
    show StateT.run (pure ("Promise<" ++ (if T == "" then "void" else T) ++ ">",
      asyncResultF f pre post ("Promise<" ++ (if T == "" then "void" else T) ++ ">")) :
        ConvM (String × TypeSchema)) st1 = _
    rw [if_neg (by simp [hTne])]
    rfl
  · intro strs ps' st1 hgo hlen
    unfold convertFunctionReturn
    simp only [hret, hasync, withFs_def, fs_mk]
    rw [if_neg (fun h => nomatch h)]
    simp only [hasync, hparams, withFs_def, fs_mk]
    rw [hsplit]
    rw [StateT.run_bind, hgo]
    show StateT.run ((do
      let paramStrs2 ←
        if (strs.length > 1) then do
          warn ("Warning: Promises cannot return more than one value: " ++ tmpl f.fs.name ++ ".")
          pure ["object"]
        else pure strs
      let promiseReturn := match paramStrs2.head? with
        | some s => if s == "" then "void" else s
        | none => "void"
      let rt := "Promise<" ++ promiseReturn ++ ">"
      pure (rt, asyncResultF f pre post rt)) : ConvM (String × TypeSchema)) st1 = _
    rw [if_pos hlen]
    rfl

/-- C2 witness: the three promise shapes at the concrete scenarios of the
claim, including the single logged warning for the two-parameter callback. -/
theorem convertFunctionReturn_async_promise_spec_witness :
    (c2cb1.fs.typ == some "function" &&
      asyncNameMatch (some (.s "callback")) c2cb1.fs.name) = true ∧
    (convertFunctionReturn cW 5 c2f0).run {} =
      .ok (("Promise<void>", asyncResultF c2f0 [] [] "Promise<void>"), {}) ∧
    (convertFunctionReturn cW 6 c2f1).run {} =
      .ok (("Promise<number>", asyncResultF c2f1 [] [] "Promise<number>"), {}) ∧
    (convertFunctionReturn cW 5 c2f2).run {} =
      .ok (("Promise<object>", asyncResultF c2f2 [] [] "Promise<object>"),
        { warnings := ["Warning: Promises cannot return more than one value: g."] }) :=
  ⟨rfl,
   (convertFunctionReturn_async_promise_spec cW 3 c2f0 "callback" [] c2cb0 [] {}
     rfl rfl rfl (by intro x hx; cases hx) rfl).1 (Or.inl rfl),
   (convertFunctionReturn_async_promise_spec cW 3 c2f1 "callback" [] c2cb1 [] {}
     rfl rfl rfl (by intro x hx; cases hx) rfl).2.1 c2p "number"
     (setParamId c2p (some "g")) {} rfl rfl,
   (convertFunctionReturn_async_promise_spec cW 3 c2f2 "callback" [] c2cb2 [] {}
     rfl rfl rfl (by intro x hx; cases hx) rfl).2.2
     ["number", "string"] [setParamId c2p (some "g"), setParamId c2q (some "g")] {} rfl
     (by decide)⟩

/-- C6: an enum node with an identifier compiled not at declaration root
hoists a root-style compilation of itself into the additional-type sink under
the synthesized `_PascalCase` name and returns that name; the sink
de-duplication of `convertNamespace` (lines 848–849) keeps exactly one entry
per structurally distinct string, whatever the number of use sites. -/
theorem convertType_enum_hoist_spec (c : Ctx) (m : Nat) (t : TypeSchema) (es : List EnumVal)
    (st st2 : ConvState) (rootOut : String) (t2 : TypeSchema)
    (hover : truthyS t.fs.converterTypeOverride = false)
    (haddl : truthyS t.fs.converterAdditionalType = false)
    (hchoices : t.fs.choices = none)
    (henum : t.fs.enumV = some es)
    (hid : truthyS (adoptEnumId t).fs.id = true)
    (hroot : (convertType c (m + 2) (adoptEnumId t) true).run st = .ok ((rootOut, t2), st2)) :
    (convertType c (m + 4) t false).run st =
      .ok (("_" ++ convertName ((adoptEnumId t).fs.id.getD ""), t2),
        { st2 with additionalTypes := st2.additionalTypes ++
          [commentFromSchema c (adoptEnumId t) ++ "type " ++
            ("_" ++ convertName ((adoptEnumId t).fs.id.getD "")) ++ " = " ++ rootOut] }) ∧
    (∀ l : List String, (uniqWith (fun a b => a == b) l).Nodup ∧
      (∀ s, s ∈ uniqWith (fun a b => a == b) l ↔ s ∈ l)) := by
  constructor
  · have hcore : (convertTypeCore c (m + 3) t false).run st =
        .ok (("_" ++ convertName ((adoptEnumId t).fs.id.getD ""), t2),
          { st2 with additionalTypes := st2.additionalTypes ++
            [commentFromSchema c (adoptEnumId t) ++ "type " ++
              ("_" ++ convertName ((adoptEnumId t).fs.id.getD "")) ++ " = " ++ rootOut] }) := by
      unfold convertTypeCore
      simp only [hchoices, henum]
      rw [if_neg (by simp), if_pos hid]
      rw [StateT.run_bind, hroot, exc_bind_ok]
      rfl
    unfold convertType
    simp only [hover, haddl]
    rw [if_neg (by simp), if_neg (by simp), StateT.run_bind, hcore, exc_bind_ok]
    rw [if_neg (by simpa using underscore_append_ne_empty (convertName ((adoptEnumId t).fs.id.getD "")))]
    rfl
  · intro l
    exact ⟨uniqWith_beq_nodup l, fun s => uniqWith_beq_mem_iff l s⟩

/-- C6 witness: the snake_case enum `my_enum` hoists as `_MyEnum` with one
sink entry. -/
theorem convertType_enum_hoist_spec_witness :
    truthyS (adoptEnumId c6t).fs.id = true ∧
    (convertType cW 4 c6t false).run {} =
      .ok (("_MyEnum", adoptEnumId c6t),
        { additionalTypes := ["type _MyEnum = \"u\"|\"v\";"] }) :=
  ⟨rfl,
   by
    have h := (convertType_enum_hoist_spec cW 0 c6t [.str "u", .str "v"] {} {}
      "\"u\"|\"v\";" (adoptEnumId c6t) rfl rfl rfl rfl rfl rfl).1
    simpa using h⟩

theorem choicesFold_eq (cs : List TypeSchema) :
    cs.foldl (fun acc ch =>
      match ch.fs.enumV with
      | some es => (acc.1, acc.2 ++ es)
      | none => (acc.1 ++ [ch], acc.2)) ([], []) =
    (specNonEnumChoices cs, specChoiceEnums cs) := by
  have key : ∀ (l : List TypeSchema) (a : List TypeSchema) (b : List EnumVal),
      l.foldl (fun acc ch =>
        match ch.fs.enumV with
        | some es => (acc.1, acc.2 ++ es)
        | none => (acc.1 ++ [ch], acc.2)) (a, b) =
      (a ++ specNonEnumChoices l, b ++ specChoiceEnums l) := by
    intro l
    induction l with
    | nil => intro a b; simp [specNonEnumChoices, specChoiceEnums]
    | cons ch rest ih =>
      intro a b
      simp only [List.foldl_cons]
      cases he : ch.fs.enumV with
      | some es =>
        simp only [he, ih]
        simp [specNonEnumChoices, specChoiceEnums, List.filter_cons, he, List.append_assoc]
      | none =>
        simp only [he, ih]
        simp [specNonEnumChoices, specChoiceEnums, List.filter_cons, he]
  simpa using key cs [] []

/-- C7 (amended): compiling a node carrying a `choices` list partitions the
children into enum and non-enum choices, appends one synthetic enum node
carrying the parent's identifier and the concatenated value sets when at
least one enum **value** was collected, compiles every resulting choice
mapping `any` to `object`, removes duplicates and joins with a pipe — stated
as equality with the claim-side program `specChoicesCompile`. -/
theorem convertType_choices_spec (c : Ctx) (n : Nat) (t : TypeSchema) (cs : List TypeSchema)
    (root : Bool) (st : ConvState)
    (hover : truthyS t.fs.converterTypeOverride = false)
    (haddl : (truthyS t.fs.converterAdditionalType && truthyS t.fs.id) = false)
    (hchoices : t.fs.choices = some cs) :
    (convertType c (n + 2) t root).run st = (specChoicesCompile c n t cs).run st := by
  unfold convertType
  simp only [hover, haddl]
  rw [if_neg (by simp), if_neg (by simp), StateT.run_bind]
  unfold convertTypeCore
  simp only [hchoices, choicesFold_eq]
  unfold specChoicesCompile
  cases hgo : (convertChoicesGo c n (specNonEnumChoices cs ++
      (if (specChoiceEnums cs).length > 0 then
        [TypeSchema.mk { id := t.fs.id, enumV := some (specChoiceEnums cs) }] else []))).run st with
  | error e =>
    rw [StateT.run_bind, hgo]
    rw [StateT.run_bind, hgo]
    rfl
  | ok p =>
    rw [StateT.run_bind, hgo, exc_bind_ok]
    rw [StateT.run_bind, hgo, exc_bind_ok]
    rfl

/-- C7 counterexample: on a node whose only choice is an enum child with an
**empty** value set, the code raises the cannot-handle error, while the claim
as stated (synthetic node appended whenever an enum child exists) produces
the hoisted `_X` reference with a sink entry — so the claim is false on this
input. -/
theorem convertType_choices_counterexample :
    (convertType cW 20 c7t false).run {} = .error (.cannotHandle c7t) ∧
    (specChoicesCompileClaim cW 18 c7t [.mk { enumV := some [] }]).run {} =
      .ok (("_X", c7t), { additionalTypes := ["type _X = ;"] }) ∧
    okB ((convertType cW 20 c7t false).run {}) = false ∧
    okB ((specChoicesCompileClaim cW 18 c7t [.mk { enumV := some [] }]).run {}) = true :=
  ⟨rfl, rfl, rfl, rfl⟩

/-- C7 witness: a string choice beside an `a`/`b` enum choice compiles to
`string | _X`, with the synthetic enum hoisted once. -/
theorem convertType_choices_spec_witness :
    truthyS c7tb.fs.converterTypeOverride = false ∧
    (convertType cW 12 c7tb false).run {} = (specChoicesCompile cW 10 c7tb
      [.mk { typ := some "string" }, .mk { enumV := some [.str "a", .str "b"] }]).run {} ∧
    (convertType cW 12 c7tb false).run {} =
      .ok (("string | _X", c7tb), { additionalTypes := ["type _X = \"a\"|\"b\";"] }) :=
  ⟨by rfl,
   convertType_choices_spec cW 10 c7tb
     [.mk { typ := some "string" }, .mk { enumV := some [.str "a", .str "b"] }] false {}
     (by rfl) (by rfl) (by rfl),
   by rfl⟩

/-- C5 witness: both directions at the concrete scenario of the claim. -/
theorem convertRef_fallback_spec_witness :
    (jsSplitChar "foo.Bar" '.' = ["foo", "Bar"] ∧ "foo" ∉ jsKeys c5ctx.namespaces) ∧
    (convertRef c5ctx "foo.Bar").run {} =
      .ok ("foo.Bar",
        { additionalTypes := ["type foo.Bar = any;"],
          warnings := ["Warning: Cannot find reference \"foo.Bar\", assuming the browser knows better."] }) ∧
    (convertRef c5ctxSame "foo.Bar").run {} = .ok ("Bar", {}) :=
  ⟨⟨by decide, by decide⟩,
   convertRef_fallback_spec.1 c5ctx "foo.Bar" "foo" "Bar" {} (by decide) rfl (by decide)
     (by decide) rfl,
   convertRef_fallback_spec.2 c5ctxSame "foo.Bar" "Bar" {} (by decide) rfl (by decide)⟩

end Converter
